import Mathlib

/-!
# SLALOM material-parameter callbacks (Device/Silvaco): a shallow embedding

The C modules under `Device/Silvaco` are the callbacks a device simulator calls
per mesh node: `bandcomp`, `index`, `conmun`, `conmup`, `epsilon`, `taun`,
`taup`, `copt`, `gaun`, `gaup`, once for the InGaN alloy and once for CZTS.

Modelling conventions.

* A C `double` is an element of an ordered field `K`; the arithmetic is the exact
  field arithmetic (no rounding, no NaN).  All definitions are generic in `K`, so
  they evaluate on `ℚ` and are reasoned about on `ℝ`.
* The libm functions `sqrt` and `pow` are parameters of the callbacks that use
  them; the theorems instantiate them with `Real.sqrt` and `Real.rpow`.
* The `#define`d constants of `InN_GaN_Parameters.h` and `CZTS_Parameters.h` are
  constants of the same name.
* An output slot `double *p` becomes a field of the returned record, next to the
  `int` status the C function returns.
-/

namespace SLALOM

variable {K : Type} [LinearOrderedField K]

/-! ## `InN_GaN_Parameters.h` -/

def BowingBandgap : K := 1.43
def BowingAffinity : K := 0.8

def eg300_InN : K := 0.7
def egalpha_InN : K := 0.914e-3
def egbeta_InN : K := 825.0
def nc300_InN : K := 9.1e17
def nv300_InN : K := 5.3e19
def permittivity_InN : K := 15.3
def affinity_InN : K := 5.6

def augn_InN : K := 1.5e-30
def augp_InN : K := 1.5e-30
def copt_InN : K := 2.0e-10
def taun0_InN : K := 1.0e-9
def taup0_InN : K := 1.0e-9

def mu1n_InN : K := 30.0
def mu2n_InN : K := 1100.0
def deltan_InN : K := 1.0
def ncritn_InN : K := 8e18
def mu1p_InN : K := 3.0
def mu2p_InN : K := 340.0
def deltap_InN : K := 2.0
def ncritp_InN : K := 3e17

def eg300_GaN : K := 3.42
def egalpha_GaN : K := 9.47e-4
def egbeta_GaN : K := 621.0
def nc300_GaN : K := 2.3e18
def nv300_GaN : K := 4.6e19
def permittivity_GaN : K := 8.9
def affinity_GaN : K := 4.1

def augn_GaN : K := 1.5e-30
def augp_GaN : K := 1.5e-30
def copt_GaN : K := 1.1e-8
def taun0_GaN : K := 1.0e-9
def taup0_GaN : K := 1.0e-9

def mu1n_GaN : K := 55.0
def mu2n_GaN : K := 1000.0
def deltan_GaN : K := 1.0
def ncritn_GaN : K := 2e17
def mu1p_GaN : K := 3.0
def mu2p_GaN : K := 170.0
def deltap_GaN : K := 2.0
def ncritp_GaN : K := 3e17

/-! ## `CZTS_Parameters.h` -/

def eg300_CZTS : K := 1.5
def egalpha_CZTS : K := 4e-4
def egbeta_CZTS : K := 300.0
def nc300_CZTS : K := 2.2e18
def nv300_CZTS : K := 1.8e19
def permittivity_CZTS : K := 10.0
def affinity_CZTS : K := 4.5

def augn_CZTS : K := 1e-30
def augp_CZTS : K := 1e-30
def copt_CZTS : K := 1e-12
def taun0_CZTS : K := 1.0e-6
def taup0_CZTS : K := 1.0e-6

def mu1n_CZTS : K := 50.0
def mu2n_CZTS : K := 200.0
def deltan_CZTS : K := 1.0
def ncritn_CZTS : K := 1e18
def mu1p_CZTS : K := 5.0
def mu2p_CZTS : K := 50.0
def deltap_CZTS : K := 2.0
def ncritp_CZTS : K := 1e17

/-! ## Result records -/

/-- Outputs of `bandcomp`: the returned status and the slots `*eg`, `*chi`, `*nc`,
`*nv`, `*degdt`. -/
structure BandOut (K : Type) where
  status : Int
  eg : K
  chi : K
  nc : K
  nv : K
  degdt : K

/-- Outputs of `index`: the returned status and the slots `*n`, `*k`. -/
structure IndexOut (K : Type) where
  status : Int
  n : K
  k : K

/-- Outputs of a callback with a single slot (`*mun`, `*mup`, `*eps`, `*taun`, ...). -/
structure ScalarOut (K : Type) where
  status : Int
  val : K

/-! ## Band parameters: `InGaN_Bandgap.c`, `CZTS_Bandgap.c` -/

/-- The body of `bandcomp` in `InGaN_Bandgap.c`, with the end-member constants and
the two bowing parameters it reads from the header passed explicitly
(`A` is the `_InN` set, `B` the `_GaN` set). -/
def bandcompWith (eg300A egalphaA egbetaA nc300A nv300A affinityA : K)
    (eg300B egalphaB egbetaB nc300B nv300B affinityB : K) (bowEg bowChi : K)
    (xcomp _ycomp temp : K) : BandOut K :=
  let ega := (xcomp * egalphaA) + ((1.0 - xcomp) * egalphaB)
  let egb := (xcomp * egbetaA) + ((1.0 - xcomp) * egbetaB)
  { status := 0
    eg := (xcomp * eg300A) + ((1.0 - xcomp) * eg300B) - (bowEg * xcomp * (1.0 - xcomp))
    chi := (xcomp * affinityA) + ((1.0 - xcomp) * affinityB) - (bowChi * xcomp * (1.0 - xcomp))
    nc := (xcomp * nc300A) + ((1.0 - xcomp) * nc300B)
    nv := (xcomp * nv300A) + ((1.0 - xcomp) * nv300B)
    degdt := ((-2.0 * ega * temp * (temp + egb)) + (ega * temp * temp))
               / ((temp + egb) * (temp + egb)) }

namespace InGaN

/-- The function `bandcomp` of `InGaN_Bandgap.c`. -/
def bandcomp (xcomp ycomp temp : K) : BandOut K :=
  bandcompWith eg300_InN egalpha_InN egbeta_InN nc300_InN nv300_InN affinity_InN
    eg300_GaN egalpha_GaN egbeta_GaN nc300_GaN nv300_GaN affinity_GaN
    BowingBandgap BowingAffinity xcomp ycomp temp

end InGaN

namespace CZTS

/-- The function `bandcomp` of `CZTS_Bandgap.c`. -/
def bandcomp (_xcomp _ycomp temp : K) : BandOut K :=
  let ega : K := egalpha_CZTS
  let egb : K := egbeta_CZTS
  { status := 0
    eg := eg300_CZTS
    chi := affinity_CZTS
    nc := nc300_CZTS
    nv := nv300_CZTS
    degdt := ((-2.0 * ega * temp * (temp + egb)) + (ega * temp * temp))
               / ((temp + egb) * (temp + egb)) }

end CZTS

/-! ## Mobility: `InGaN_Mobility.c`, `CZTS_Mobility.c` -/

namespace InGaN

/-- The function `conmun` of `InGaN_Mobility.c`; `pow` is libm's `pow`. -/
def conmun (pow : K → K → K) (xcomp _ycomp temp nd na _x _y _taun : K) : ScalarOut K :=
  let tempa_InN : K := 1.0
  let tempb_InN : K := 1.0
  let tempc_InN : K := 1.0
  let tempd_InN : K := 1.0
  let tempa_GaN : K := 1.0
  let tempb_GaN : K := 1.0
  let tempc_GaN : K := 1.0
  let tempd_GaN : K := 1.0
  let mu1n_InGaN := 1.0 / ((xcomp / mu1n_InN) + ((1.0 - xcomp) / mu1n_GaN))
  let mu2n_InGaN := 1.0 / ((xcomp / mu2n_InN) + ((1.0 - xcomp) / mu2n_GaN))
  let deltan_InGaN := (xcomp * deltan_InN) + ((1.0 - xcomp) * deltan_GaN)
  let ncritn_InGaN := (xcomp * ncritn_InN) + ((1.0 - xcomp) * ncritn_GaN)
  let tempa_InGaN := (xcomp * tempa_InN) + ((1.0 - xcomp) * tempa_GaN)
  let tempb_InGaN := (xcomp * tempb_InN) + ((1.0 - xcomp) * tempb_GaN)
  let tempc_InGaN := (xcomp * tempc_InN) + ((1.0 - xcomp) * tempc_GaN)
  let tempd_InGaN := (xcomp * tempd_InN) + ((1.0 - xcomp) * tempd_GaN)
  let tempa := pow (temp / 300.0) tempa_InGaN
  let tempb := pow (temp / 300.0) tempb_InGaN
  let tempc := pow (temp / 300.0) tempc_InGaN
  let tempd := pow (temp / 300.0) tempd_InGaN
  let Ntotal := nd + na
  { status := 0
    val := (mu1n_InGaN * tempa) + (((mu2n_InGaN * tempb) - (mu1n_InGaN * tempa))
             / (1.0 + pow (Ntotal / (ncritn_InGaN * tempc)) (deltan_InGaN * tempd))) }

/-- The function `conmup` of `InGaN_Mobility.c`; `pow` is libm's `pow`. -/
def conmup (pow : K → K → K) (xcomp _ycomp temp nd na _x _y _taup : K) : ScalarOut K :=
  let tempa_InN : K := 1.0
  let tempb_InN : K := 1.0
  let tempc_InN : K := 1.0
  let tempd_InN : K := 1.0
  let tempa_GaN : K := 1.0
  let tempb_GaN : K := 1.0
  let tempc_GaN : K := 1.0
  let tempd_GaN : K := 1.0
  let mu1p_InGaN := 1.0 / ((xcomp / mu1p_InN) + ((1.0 - xcomp) / mu1p_GaN))
  let mu2p_InGaN := 1.0 / ((xcomp / mu2p_InN) + ((1.0 - xcomp) / mu2p_GaN))
  let deltap_InGaN := (xcomp * deltap_InN) + ((1.0 - xcomp) * deltap_GaN)
  let ncritp_InGaN := (xcomp * ncritp_InN) + ((1.0 - xcomp) * ncritp_GaN)
  let tempa_InGaN := (xcomp * tempa_InN) + ((1.0 - xcomp) * tempa_GaN)
  let tempb_InGaN := (xcomp * tempb_InN) + ((1.0 - xcomp) * tempb_GaN)
  let tempc_InGaN := (xcomp * tempc_InN) + ((1.0 - xcomp) * tempc_GaN)
  let tempd_InGaN := (xcomp * tempd_InN) + ((1.0 - xcomp) * tempd_GaN)
  let tempa := pow (temp / 300.0) tempa_InGaN
  let tempb := pow (temp / 300.0) tempb_InGaN
  let tempc := pow (temp / 300.0) tempc_InGaN
  let tempd := pow (temp / 300.0) tempd_InGaN
  let Ntotal := nd + na
  { status := 0
    val := (mu1p_InGaN * tempa) + (((mu2p_InGaN * tempb) - (mu1p_InGaN * tempa))
             / (1.0 + pow (Ntotal / (ncritp_InGaN * tempc)) (deltap_InGaN * tempd))) }

end InGaN

namespace CZTS

/-- The function `conmun` of `CZTS_Mobility.c`; `pow` is libm's `pow`. -/
def conmun (pow : K → K → K) (_xcomp _ycomp temp nd na _x _y _taun : K) : ScalarOut K :=
  let tempa_CZTS : K := 1.0
  let tempb_CZTS : K := 1.0
  let tempc_CZTS : K := 1.0
  let tempd_CZTS : K := 1.0
  let tempa := pow (temp / 300.0) tempa_CZTS
  let tempb := pow (temp / 300.0) tempb_CZTS
  let tempc := pow (temp / 300.0) tempc_CZTS
  let tempd := pow (temp / 300.0) tempd_CZTS
  let Ntotal := nd + na
  { status := 0
    val := (mu1n_CZTS * tempa) + (((mu2n_CZTS * tempb) - (mu1n_CZTS * tempa))
             / (1.0 + pow (Ntotal / (ncritn_CZTS * tempc)) (deltan_CZTS * tempd))) }

/-- The function `conmup` of `CZTS_Mobility.c`; `pow` is libm's `pow`. -/
def conmup (pow : K → K → K) (_xcomp _ycomp temp nd na _x _y _taup : K) : ScalarOut K :=
  let tempa_CZTS : K := 1.0
  let tempb_CZTS : K := 1.0
  let tempc_CZTS : K := 1.0
  let tempd_CZTS : K := 1.0
  let tempa := pow (temp / 300.0) tempa_CZTS
  let tempb := pow (temp / 300.0) tempb_CZTS
  let tempc := pow (temp / 300.0) tempc_CZTS
  let tempd := pow (temp / 300.0) tempd_CZTS
  let Ntotal := nd + na
  { status := 0
    val := (mu1p_CZTS * tempa) + (((mu2p_CZTS * tempb) - (mu1p_CZTS * tempa))
             / (1.0 + pow (Ntotal / (ncritp_CZTS * tempc)) (deltap_CZTS * tempd))) }

end CZTS

/-! ## Complex refractive index: `InGaN_Index.c`, `CZTS_Index.c` -/

namespace InGaN

/-- The function `index` of `InGaN_Index.c`; `sqrt` is libm's `sqrt`.  The local
arrays `Ct` and `Dt` of the C function are never read and are left out. -/
def index (sqrt : K → K) (lambda _temp xcomp _ycomp _nconc _pconc _emag : K) : IndexOut K :=
  let Eph := 1.23984 / lambda
  let alpha0 : K := 1e5
  let Eg := (xcomp * eg300_InN) + ((1.0 - xcomp) * eg300_GaN)
              - (BowingBandgap * xcomp * (1.0 - xcomp))
  let C := 3.525016201 - (18.297594473 * xcomp) + (40.221588785 * xcomp * xcomp)
             - (37.52274528 * xcomp * xcomp * xcomp)
             + (12.772362503 * xcomp * xcomp * xcomp * xcomp)
  let D := -0.665086247 + (3.616441372 * xcomp) - (2.460307692 * xcomp * xcomp)
  let alpha :=
    if Eph ≥ Eg then alpha0 * sqrt ((C * (Eph - Eg)) + (D * (Eph - Eg) * (Eph - Eg)))
    else 0.0
  let A := (13.55 * xcomp) + (9.31 * (1.0 - xcomp))
  let B := (2.05 * xcomp) + (3.03 * (1.0 - xcomp))
  { status := 0
    k := lambda * (1e-4) * alpha / (4.0 * 3.141592653589793)
    n := if Eph ≥ Eg then sqrt ((A * 0.5857864376269) + B)
         else sqrt ((A * Eg * Eg * (2.0 - sqrt (1.0 + (Eph / Eg)) - sqrt (1.0 - (Eph / Eg)))
                      / (Eph * Eph)) + B) }

end InGaN

namespace CZTS

/-- The function `index` of `CZTS_Index.c`; `sqrt` is libm's `sqrt`. -/
def index (sqrt : K → K) (lambda _temp _xcomp _ycomp _nconc _pconc _emag : K) : IndexOut K :=
  let Eph := 1.23984 / lambda
  let Eg : K := 1.5
  let kA : K := 0.2
  { status := 0
    n := 2.59
    k := if Eph ≥ Eg then (2.0 * Eg / Eph) * kA * sqrt ((Eph - Eg) / Eg) else 0.0 }

end CZTS

/-! ## Permittivity and recombination: `*_Permittivity.c`, `*_Recomb.c` -/

namespace InGaN

/-- The function `epsilon` of `InGaN_Permittivity.c`. -/
def epsilon (xcomp _ycomp _temp : K) : ScalarOut K :=
  { status := 0
    val := (xcomp * permittivity_InN) + ((1.0 - xcomp) * permittivity_GaN) }

/-- The function `taun` of `InGaN_Recomb.c`. -/
def taun (_x _y _temp _nd _na : K) : ScalarOut K :=
  let xcomp : K := 0.50
  { status := 0
    val := (xcomp * taun0_InN) + ((1.0 - xcomp) * taun0_GaN) }

/-- The function `taup` of `InGaN_Recomb.c`. -/
def taup (_x _y _temp _nd _na : K) : ScalarOut K :=
  let xcomp : K := 0.50
  { status := 0
    val := (xcomp * taup0_InN) + ((1.0 - xcomp) * taup0_GaN) }

/-- The function `copt` of `InGaN_Recomb.c`. -/
def copt (_temp xcomp _ycomp : K) : ScalarOut K :=
  { status := 0
    val := (xcomp * copt_InN) + ((1.0 - xcomp) * copt_GaN) }

/-- The function `gaun` of `InGaN_Recomb.c`. -/
def gaun (_temp xcomp _ycomp : K) : ScalarOut K :=
  { status := 0
    val := (xcomp * augn_InN) + ((1.0 - xcomp) * augn_GaN) }

/-- The function `gaup` of `InGaN_Recomb.c`. -/
def gaup (_temp xcomp _ycomp : K) : ScalarOut K :=
  { status := 0
    val := (xcomp * augp_InN) + ((1.0 - xcomp) * augp_GaN) }

end InGaN

namespace CZTS

/-- The function `epsilon` of `CZTS_Permittivity.c`. -/
def epsilon (_xcomp _ycomp _temp : K) : ScalarOut K :=
  { status := 0, val := permittivity_CZTS }

/-- The function `taun` of `CZTS_Recomb.c`. -/
def taun (_x _y _temp _nd _na : K) : ScalarOut K :=
  { status := 0, val := taun0_CZTS }

/-- The function `taup` of `CZTS_Recomb.c`. -/
def taup (_x _y _temp _nd _na : K) : ScalarOut K :=
  { status := 0, val := taup0_CZTS }

/-- The function `copt` of `CZTS_Recomb.c`. -/
def copt (_temp _xcomp _ycomp : K) : ScalarOut K :=
  { status := 0, val := copt_CZTS }

/-- The function `gaun` of `CZTS_Recomb.c`. -/
def gaun (_temp _xcomp _ycomp : K) : ScalarOut K :=
  { status := 0, val := augn_CZTS }

/-- The function `gaup` of `CZTS_Recomb.c`. -/
def gaup (_temp _xcomp _ycomp : K) : ScalarOut K :=
  { status := 0, val := augp_CZTS }

end CZTS

/-! ## Quantities named by the specification -/

/-- Bowing-corrected mixing rule of the specification:
`P = x·P_A + (1-x)·P_B − b·x·(1-x)`. -/
def bowingMix (pA pB b x : K) : K := x * pA + (1 - x) * pB - b * x * (1 - x)

/-- Linear mixing rule of the specification: `P = x·P_A + (1-x)·P_B`. -/
def linearMix (pA pB x : K) : K := x * pA + (1 - x) * pB

/-- Harmonic mixing rule of the specification: `1/P = x/P_A + (1-x)/P_B`. -/
def harmonicMix (pA pB x : K) : K := 1 / (x / pA + (1 - x) / pB)

/-- Varshni expression of the specification: `Eg(T) = Eg300 − α·T²/(T+β)`. -/
def varshni (eg300 alpha beta T : K) : K := eg300 - alpha * T ^ 2 / (T + beta)

/-- Caughey–Thomas law of the specification,
`mu = mu1·T_a + (mu2·T_b − mu1·T_a) / (1 + (N/(ncrit·T_c))^(delta·T_d))` with
`T_x = (T/300)^(e_x)`; `pow` is the power function. -/
def caugheyThomas (pow : K → K → K) (mu1 mu2 ncrit delta ea eb ec ed T N : K) : K :=
  mu1 * pow (T / 300) ea
    + (mu2 * pow (T / 300) eb - mu1 * pow (T / 300) ea)
      / (1 + pow (N / (ncrit * pow (T / 300) ec)) (delta * pow (T / 300) ed))

/-! ## Helper lemmas -/

/-- The closed form written to `*degdt` is the derivative of the Varshni expression. -/
lemma hasDerivAt_varshni (e a b T : ℝ) (h : T + b ≠ 0) :
    HasDerivAt (fun t => varshni e a b t)
      (((-2 * a * T * (T + b)) + a * T * T) / ((T + b) * (T + b))) T := by
  unfold varshni
  have h1 : HasDerivAt (fun t : ℝ => a * t ^ 2) (a * (2 * T)) T := by
    simpa using ((hasDerivAt_pow 2 T).const_mul a)
  have h2 : HasDerivAt (fun t : ℝ => t + b) 1 T := (hasDerivAt_id T).add_const b
  have h3 := (h1.div h2 h).const_sub e
  convert h3 using 1
  field_simp
  ring

/-! ## Mobility: helper lemmas -/

/-- Closed form of the InGaN `conmun` output on the reals: all four temperature
exponents are `x·1 + (1−x)·1 = 1` and `deltan` is `1`. -/
lemma conmun_val_InGaN (x y T nd na px py tau : ℝ) :
    (InGaN.conmun Real.rpow x y T nd na px py tau).val
      = harmonicMix mu1n_InN mu1n_GaN x * (T / 300)
        + (harmonicMix mu2n_InN mu2n_GaN x * (T / 300)
            - harmonicMix mu1n_InN mu1n_GaN x * (T / 300))
          / (1 + ((nd + na) / (linearMix ncritn_InN ncritn_GaN x * (T / 300))) ^ (1 * (T / 300))) := by
  have e : x * (1.0 : ℝ) + (1.0 - x) * 1.0 = 1 := by norm_num
  simp only [InGaN.conmun, harmonicMix, linearMix, deltan_InN, deltan_GaN, e,
    Real.rpow_eq_pow, Real.rpow_one]
  norm_num

/-- Closed form of the InGaN `conmup` output on the reals (`deltap` is `2`). -/
lemma conmup_val_InGaN (x y T nd na px py tau : ℝ) :
    (InGaN.conmup Real.rpow x y T nd na px py tau).val
      = harmonicMix mu1p_InN mu1p_GaN x * (T / 300)
        + (harmonicMix mu2p_InN mu2p_GaN x * (T / 300)
            - harmonicMix mu1p_InN mu1p_GaN x * (T / 300))
          / (1 + ((nd + na) / (linearMix ncritp_InN ncritp_GaN x * (T / 300))) ^ (2 * (T / 300))) := by
  have e : x * (1.0 : ℝ) + (1.0 - x) * 1.0 = 1 := by norm_num
  have e2 : x * (2.0 : ℝ) + (1.0 - x) * 2.0 = 2 := by norm_num; ring
  simp only [InGaN.conmup, harmonicMix, linearMix, deltap_InN, deltap_GaN, e, e2,
    Real.rpow_eq_pow, Real.rpow_one]
  norm_num

/-- Closed form of the CZTS `conmun` output on the reals. -/
lemma conmun_val_CZTS (x y T nd na px py tau : ℝ) :
    (CZTS.conmun Real.rpow x y T nd na px py tau).val
      = mu1n_CZTS * (T / 300)
        + (mu2n_CZTS * (T / 300) - mu1n_CZTS * (T / 300))
          / (1 + ((nd + na) / (ncritn_CZTS * (T / 300))) ^ (1 * (T / 300))) := by
  simp only [CZTS.conmun, deltan_CZTS, Real.rpow_eq_pow]
  norm_num

/-- Closed form of the CZTS `conmup` output on the reals. -/
lemma conmup_val_CZTS (x y T nd na px py tau : ℝ) :
    (CZTS.conmup Real.rpow x y T nd na px py tau).val
      = mu1p_CZTS * (T / 300)
        + (mu2p_CZTS * (T / 300) - mu1p_CZTS * (T / 300))
          / (1 + ((nd + na) / (ncritp_CZTS * (T / 300))) ^ (2 * (T / 300))) := by
  simp only [CZTS.conmup, deltap_CZTS, Real.rpow_eq_pow]
  norm_num

/-- Zero-doping value of the Caughey–Thomas expression: the power term is `0 ^ e = 0`
for `e ≠ 0`, so the quotient is the whole difference. -/
lemma ct_zero_doping (u v c e : ℝ) (he : e ≠ 0) :
    u + (v - u) / (1 + ((0 : ℝ) / c) ^ e) = v := by
  rw [zero_div, Real.zero_rpow he]
  ring

/-- The Caughey–Thomas expression lies between its two end values when the power
term is non-negative. -/
lemma ct_between (u v p : ℝ) (hp : 0 ≤ p) :
    min u v ≤ u + (v - u) / (1 + p) ∧ u + (v - u) / (1 + p) ≤ max u v := by
  have hw : (0 : ℝ) < 1 + p := by linarith
  rcases le_total u v with h | h
  · have h0 : 0 ≤ (v - u) / (1 + p) := div_nonneg (by linarith) hw.le
    have h1 : (v - u) / (1 + p) ≤ v - u := div_le_self (by linarith) (by linarith)
    rw [min_eq_left h, max_eq_right h]
    constructor <;> linarith
  · have h0 : (v - u) / (1 + p) ≤ 0 := div_nonpos_of_nonpos_of_nonneg (by linarith) hw.le
    have h1 : v - u ≤ (v - u) / (1 + p) := by
      rw [le_div_iff₀ hw]
      nlinarith
    rw [min_eq_right h, max_eq_left h]
    constructor <;> linarith

/-- Infinite-doping limit of the Caughey–Thomas expression: when the total doping
tends to `+∞` (with `c > 0`, `e > 0`) the quotient vanishes and `u` remains. -/
lemma ct_tendsto {ι : Type} (l : Filter ι) (N : ι → ℝ) (u v c e : ℝ) (hc : 0 < c)
    (he : 0 < e) (hN : Filter.Tendsto N l Filter.atTop) :
    Filter.Tendsto (fun i => u + (v - u) / (1 + (N i / c) ^ e)) l (nhds u) := by
  have h1 : Filter.Tendsto (fun i => N i / c) l Filter.atTop := hN.atTop_div_const hc
  have h2 : Filter.Tendsto (fun i => (N i / c) ^ e) l Filter.atTop :=
    (tendsto_rpow_atTop he).comp h1
  have h3 : Filter.Tendsto (fun i => 1 + (N i / c) ^ e) l Filter.atTop :=
    Filter.tendsto_atTop_add_const_left l 1 h2
  have h4 : Filter.Tendsto (fun i => (v - u) / (1 + (N i / c) ^ e)) l (nhds 0) :=
    (tendsto_const_nhds (x := v - u)).div_atTop h3
  simpa using (tendsto_const_nhds (x := u)).add h4

/-- On `[0,1]` the interpolated critical doping of `conmun` is positive. -/
lemma ncritn_pos (x : ℝ) (h0 : 0 ≤ x) (_h1 : x ≤ 1) :
    0 < linearMix (ncritn_InN : ℝ) ncritn_GaN x := by
  simp only [linearMix, ncritn_InN, ncritn_GaN]
  nlinarith

/-- On `[0,1]` the interpolated critical doping of `conmup` is positive. -/
lemma ncritp_pos (x : ℝ) (_h0 : 0 ≤ x) (_h1 : x ≤ 1) :
    0 < linearMix (ncritp_InN : ℝ) ncritp_GaN x := by
  simp only [linearMix, ncritp_InN, ncritp_GaN]
  linarith

/-! ## Band parameters -/

/-- C1: at `xcomp = 1` the InGaN `bandcomp` writes exactly the InN constants
(`eg = 0.7`, `chi = 5.6`, `nc300_InN`, `nv300_InN`) and at `xcomp = 0` exactly the
GaN constants (`eg = 3.42`, `chi = 4.1`, `nc300_GaN`, `nv300_GaN`), for every
`ycomp` and every temperature; this holds whatever the two bowing parameters are,
so the bowing terms contribute nothing at either endpoint. -/
theorem bandcomp_endpoint_exact (ycomp temp : K) :
    ((InGaN.bandcomp 1 ycomp temp).eg = eg300_InN ∧ (InGaN.bandcomp 1 ycomp temp).eg = 0.7
      ∧ (InGaN.bandcomp 1 ycomp temp).chi = affinity_InN
      ∧ (InGaN.bandcomp 1 ycomp temp).chi = 5.6
      ∧ (InGaN.bandcomp 1 ycomp temp).nc = nc300_InN
      ∧ (InGaN.bandcomp 1 ycomp temp).nv = nv300_InN)
    ∧ ((InGaN.bandcomp 0 ycomp temp).eg = eg300_GaN ∧ (InGaN.bandcomp 0 ycomp temp).eg = 3.42
      ∧ (InGaN.bandcomp 0 ycomp temp).chi = affinity_GaN
      ∧ (InGaN.bandcomp 0 ycomp temp).chi = 4.1
      ∧ (InGaN.bandcomp 0 ycomp temp).nc = nc300_GaN
      ∧ (InGaN.bandcomp 0 ycomp temp).nv = nv300_GaN)
    ∧ ∀ bowEg bowChi : K,
        (bandcompWith eg300_InN egalpha_InN egbeta_InN nc300_InN nv300_InN affinity_InN
            eg300_GaN egalpha_GaN egbeta_GaN nc300_GaN nv300_GaN affinity_GaN
            bowEg bowChi 1 ycomp temp).eg = eg300_InN
        ∧ (bandcompWith eg300_InN egalpha_InN egbeta_InN nc300_InN nv300_InN affinity_InN
            eg300_GaN egalpha_GaN egbeta_GaN nc300_GaN nv300_GaN affinity_GaN
            bowEg bowChi 1 ycomp temp).chi = affinity_InN
        ∧ (bandcompWith eg300_InN egalpha_InN egbeta_InN nc300_InN nv300_InN affinity_InN
            eg300_GaN egalpha_GaN egbeta_GaN nc300_GaN nv300_GaN affinity_GaN
            bowEg bowChi 0 ycomp temp).eg = eg300_GaN
        ∧ (bandcompWith eg300_InN egalpha_InN egbeta_InN nc300_InN nv300_InN affinity_InN
            eg300_GaN egalpha_GaN egbeta_GaN nc300_GaN nv300_GaN affinity_GaN
            bowEg bowChi 0 ycomp temp).chi = affinity_GaN := by
  refine ⟨?_, ?_, ?_⟩
  · simp only [InGaN.bandcomp, bandcompWith, eg300_InN, affinity_InN]
    norm_num
  · simp only [InGaN.bandcomp, bandcompWith, eg300_GaN, affinity_GaN]
    norm_num
  · intro bowEg bowChi
    simp only [bandcompWith]
    norm_num

/-- C2 (claim as stated fails): at `xcomp = 0`, `temp = 300` the InGaN `bandcomp`
writes `eg = 3.42`, which is not the Varshni value `3.42 − α·300²/(300+β)`; likewise
the CZTS `bandcomp` writes `1.5`, not `1.5 − 4e-4·300²/600`. -/
theorem bandcomp_eg_not_varshni_at_300 :
    (InGaN.bandcomp (0 : ℝ) 0 300).eg
        ≠ varshni (bowingMix eg300_InN eg300_GaN BowingBandgap 0)
            (linearMix egalpha_InN egalpha_GaN 0) (linearMix egbeta_InN egbeta_GaN 0) 300
    ∧ (CZTS.bandcomp (0 : ℝ) 0 300).eg ≠ varshni eg300_CZTS egalpha_CZTS egbeta_CZTS 300 := by
  constructor
  · simp only [InGaN.bandcomp, bandcompWith, varshni, bowingMix, linearMix, eg300_InN,
      eg300_GaN, BowingBandgap, egalpha_InN, egalpha_GaN, egbeta_InN, egbeta_GaN]
    norm_num
  · simp only [CZTS.bandcomp, varshni, eg300_CZTS, egalpha_CZTS, egbeta_CZTS]
    norm_num

/-- C2 (amended): for every composition and every temperature the bandgap written by
`bandcomp` is the 300 K value itself, with no temperature term: the bowing-corrected
alloy gap `Eg300(x)` for InGaN and `eg300_CZTS` for CZTS.  It therefore differs from
the Varshni expression by exactly `α·T²/(T+β)`. -/
theorem bandcomp_eg_is_eg300 (xcomp ycomp temp : K) :
    (InGaN.bandcomp xcomp ycomp temp).eg = bowingMix eg300_InN eg300_GaN BowingBandgap xcomp
    ∧ (CZTS.bandcomp xcomp ycomp temp).eg = eg300_CZTS
    ∧ (InGaN.bandcomp xcomp ycomp temp).eg
        = varshni (bowingMix eg300_InN eg300_GaN BowingBandgap xcomp)
            (linearMix egalpha_InN egalpha_GaN xcomp) (linearMix egbeta_InN egbeta_GaN xcomp) temp
          + linearMix egalpha_InN egalpha_GaN xcomp * temp ^ 2
              / (temp + linearMix egbeta_InN egbeta_GaN xcomp)
    ∧ (CZTS.bandcomp xcomp ycomp temp).eg
        = varshni eg300_CZTS egalpha_CZTS egbeta_CZTS temp
          + egalpha_CZTS * temp ^ 2 / (temp + egbeta_CZTS) := by
  refine ⟨?_, ?_, ?_, ?_⟩
  · simp only [InGaN.bandcomp, bandcompWith, bowingMix]
    norm_num
  · simp only [CZTS.bandcomp]
  · simp only [InGaN.bandcomp, bandcompWith, bowingMix, varshni]
    norm_num
  · simp only [CZTS.bandcomp, varshni]
    norm_num

/-- C3: wherever `T + β ≠ 0`, the value written to `*degdt` by `bandcomp` is the
derivative with respect to `T` of the Varshni expression `Eg300 − α·T²/(T+β)`, with
the linearly interpolated `α(x)`, `β(x)` for InGaN and `egalpha_CZTS`, `egbeta_CZTS`
for CZTS; the value written is `((−2·α·T·(T+β)) + α·T²)/(T+β)²`. -/
theorem bandcomp_degdt_hasDerivAt (xcomp ycomp temp : ℝ) :
    (temp + linearMix egbeta_InN egbeta_GaN xcomp ≠ 0 →
      HasDerivAt
        (fun t => varshni (bowingMix eg300_InN eg300_GaN BowingBandgap xcomp)
          (linearMix egalpha_InN egalpha_GaN xcomp) (linearMix egbeta_InN egbeta_GaN xcomp) t)
        (InGaN.bandcomp xcomp ycomp temp).degdt temp)
    ∧ (temp + egbeta_CZTS ≠ 0 →
      HasDerivAt (fun t => varshni eg300_CZTS egalpha_CZTS egbeta_CZTS t)
        (CZTS.bandcomp xcomp ycomp temp).degdt temp)
    ∧ (InGaN.bandcomp xcomp ycomp temp).degdt
        = ((-2 * linearMix egalpha_InN egalpha_GaN xcomp * temp
              * (temp + linearMix egbeta_InN egbeta_GaN xcomp))
            + linearMix egalpha_InN egalpha_GaN xcomp * temp ^ 2)
          / (temp + linearMix egbeta_InN egbeta_GaN xcomp) ^ 2
    ∧ (CZTS.bandcomp xcomp ycomp temp).degdt
        = ((-2 * egalpha_CZTS * temp * (temp + egbeta_CZTS)) + egalpha_CZTS * temp ^ 2)
          / (temp + egbeta_CZTS) ^ 2 := by
  refine ⟨?_, ?_, ?_, ?_⟩
  · intro h
    have := hasDerivAt_varshni (bowingMix eg300_InN eg300_GaN BowingBandgap xcomp)
      (linearMix egalpha_InN egalpha_GaN xcomp) (linearMix egbeta_InN egbeta_GaN xcomp) temp h
    convert this using 1
    simp only [InGaN.bandcomp, bandcompWith, linearMix]
    norm_num
  · intro h
    have := hasDerivAt_varshni eg300_CZTS egalpha_CZTS egbeta_CZTS temp h
    convert this using 1
    simp only [CZTS.bandcomp]
    norm_num
  · simp only [InGaN.bandcomp, bandcompWith, linearMix]
    norm_num
    ring_nf
  · simp only [CZTS.bandcomp]
    norm_num
    ring_nf

/-- Witness for C3 at `xcomp = 1/2` and `temp = 300`, where `T + β(x) = 1023` and
`T + egbeta_CZTS = 600`. -/
theorem bandcomp_degdt_hasDerivAt_witness :
    ((300 : ℝ) + linearMix egbeta_InN egbeta_GaN (1 / 2) ≠ 0
      ∧ HasDerivAt
        (fun t => varshni (bowingMix eg300_InN eg300_GaN BowingBandgap (1 / 2 : ℝ))
          (linearMix egalpha_InN egalpha_GaN (1 / 2)) (linearMix egbeta_InN egbeta_GaN (1 / 2)) t)
        (InGaN.bandcomp (1 / 2 : ℝ) 0 300).degdt 300)
    ∧ ((300 : ℝ) + egbeta_CZTS ≠ 0
      ∧ HasDerivAt (fun t => varshni eg300_CZTS egalpha_CZTS egbeta_CZTS t)
        (CZTS.bandcomp (1 / 2 : ℝ) 0 300).degdt 300) :=
  have h1 : (300 : ℝ) + linearMix egbeta_InN egbeta_GaN (1 / 2) ≠ 0 := by
    simp only [linearMix, egbeta_InN, egbeta_GaN]; norm_num
  have h2 : (300 : ℝ) + egbeta_CZTS ≠ 0 := by simp only [egbeta_CZTS]; norm_num
  ⟨⟨h1, (bandcomp_degdt_hasDerivAt (1 / 2) 0 300).1 h1⟩,
   ⟨h2, (bandcomp_degdt_hasDerivAt (1 / 2) 0 300).2.1 h2⟩⟩

/-- C7: the bowing-corrected mixing rule is symmetric,
`mix(P_A, P_B, b, x) = mix(P_B, P_A, b, 1 − x)`; the `eg` and `chi` written by the
InGaN `bandcomp` are this rule applied to the InN/GaN constants, and they equal the
values obtained at `1 − x` with the InN and GaN constants exchanged. -/
theorem bowing_symmetry (pA pB b xcomp ycomp temp : K) :
    bowingMix pA pB b xcomp = bowingMix pB pA b (1 - xcomp)
    ∧ (InGaN.bandcomp xcomp ycomp temp).eg = bowingMix eg300_InN eg300_GaN BowingBandgap xcomp
    ∧ (InGaN.bandcomp xcomp ycomp temp).chi
        = bowingMix affinity_InN affinity_GaN BowingAffinity xcomp
    ∧ (InGaN.bandcomp xcomp ycomp temp).eg
        = (bandcompWith eg300_GaN egalpha_GaN egbeta_GaN nc300_GaN nv300_GaN affinity_GaN
            eg300_InN egalpha_InN egbeta_InN nc300_InN nv300_InN affinity_InN
            BowingBandgap BowingAffinity (1 - xcomp) ycomp temp).eg
    ∧ (InGaN.bandcomp xcomp ycomp temp).chi
        = (bandcompWith eg300_GaN egalpha_GaN egbeta_GaN nc300_GaN nv300_GaN affinity_GaN
            eg300_InN egalpha_InN egbeta_InN nc300_InN nv300_InN affinity_InN
            BowingBandgap BowingAffinity (1 - xcomp) ycomp temp).chi := by
  refine ⟨?_, ?_, ?_, ?_, ?_⟩
  · simp only [bowingMix]; ring
  · simp only [InGaN.bandcomp, bandcompWith, bowingMix]; norm_num
  · simp only [InGaN.bandcomp, bandcompWith, bowingMix]; norm_num
  · simp only [InGaN.bandcomp, bandcompWith]; norm_num; ring
  · simp only [InGaN.bandcomp, bandcompWith]; norm_num; ring

/-! ## Mobility -/

/-- C4 (claim as stated fails): at `xcomp = 0`, `temp = 300` and zero doping the
InGaN `conmun` writes `mu2n_GaN = 1000`, not the `mu1` value `mu1n_GaN = 55`. -/
theorem conmun_zero_doping_not_mu1 :
    (InGaN.conmun Real.rpow 0 0 300 0 0 0 0 0).val = 1000
    ∧ harmonicMix (mu1n_InN : ℝ) mu1n_GaN 0 * (300 / 300) = 55
    ∧ (InGaN.conmun Real.rpow 0 0 300 0 0 0 0 0).val
        ≠ harmonicMix (mu1n_InN : ℝ) mu1n_GaN 0 * (300 / 300) := by
  have hv : (InGaN.conmun Real.rpow 0 0 300 0 0 0 0 0).val = 1000 := by
    rw [conmun_val_InGaN, add_zero, ct_zero_doping _ _ _ _ (by norm_num)]
    simp only [harmonicMix, mu2n_InN, mu2n_GaN]
    norm_num
  have hm : harmonicMix (mu1n_InN : ℝ) mu1n_GaN 0 * (300 / 300) = 55 := by
    simp only [harmonicMix, mu1n_InN, mu1n_GaN]
    norm_num
  refine ⟨hv, hm, ?_⟩
  rw [hv, hm]
  norm_num

/-- C4 (amended): for `xcomp` in `[0,1]` and `temp > 0`, when `nd + na = 0` the
mobility written by `conmun` (resp. `conmup`) is the `mu2` term of the formula,
`mu2(x)·(T/300)` with the harmonically mixed `mu2(x)`, and at `T = 300` it is `mu2(x)`
itself; the CZTS `conmun`/`conmup` write `mu2n_CZTS·(T/300)` / `mu2p_CZTS·(T/300)`. -/
theorem conmun_zero_doping (xcomp ycomp temp nd na x y tau : ℝ) (hx0 : 0 ≤ xcomp)
    (hx1 : xcomp ≤ 1) (hT : 0 < temp) (hN : nd + na = 0) :
    (InGaN.conmun Real.rpow xcomp ycomp temp nd na x y tau).val
        = harmonicMix mu2n_InN mu2n_GaN xcomp * (temp / 300)
    ∧ (InGaN.conmup Real.rpow xcomp ycomp temp nd na x y tau).val
        = harmonicMix mu2p_InN mu2p_GaN xcomp * (temp / 300)
    ∧ (CZTS.conmun Real.rpow xcomp ycomp temp nd na x y tau).val = mu2n_CZTS * (temp / 300)
    ∧ (CZTS.conmup Real.rpow xcomp ycomp temp nd na x y tau).val = mu2p_CZTS * (temp / 300)
    ∧ (temp = 300 →
        (InGaN.conmun Real.rpow xcomp ycomp temp nd na x y tau).val
            = harmonicMix mu2n_InN mu2n_GaN xcomp
        ∧ (InGaN.conmup Real.rpow xcomp ycomp temp nd na x y tau).val
            = harmonicMix mu2p_InN mu2p_GaN xcomp
        ∧ (CZTS.conmun Real.rpow xcomp ycomp temp nd na x y tau).val = mu2n_CZTS
        ∧ (CZTS.conmup Real.rpow xcomp ycomp temp nd na x y tau).val = mu2p_CZTS) := by
  have _hc := ncritn_pos xcomp hx0 hx1
  have ht : (0 : ℝ) < temp / 300 := by positivity
  have e1 : (1 : ℝ) * (temp / 300) ≠ 0 := by positivity
  have e2 : (2 : ℝ) * (temp / 300) ≠ 0 := by positivity
  have a1 := conmun_val_InGaN xcomp ycomp temp nd na x y tau
  have a2 := conmup_val_InGaN xcomp ycomp temp nd na x y tau
  have a3 := conmun_val_CZTS xcomp ycomp temp nd na x y tau
  have a4 := conmup_val_CZTS xcomp ycomp temp nd na x y tau
  rw [hN, ct_zero_doping _ _ _ _ e1] at a1 a3
  rw [hN, ct_zero_doping _ _ _ _ e2] at a2 a4
  refine ⟨a1, a2, a3, a4, ?_⟩
  intro h300
  rw [a1, a2, a3, a4, h300]
  norm_num

/-- Witness for C4 (amended) at `xcomp = 1/2`, `temp = 300`, `nd = na = 0`. -/
theorem conmun_zero_doping_witness :
    ((0 : ℝ) ≤ 1 / 2 ∧ (1 / 2 : ℝ) ≤ 1 ∧ (0 : ℝ) < 300 ∧ (0 : ℝ) + 0 = 0)
    ∧ (InGaN.conmun Real.rpow (1 / 2) 0 300 0 0 0 0 0).val
        = harmonicMix mu2n_InN mu2n_GaN (1 / 2) * (300 / 300) :=
  ⟨⟨by norm_num, by norm_num, by norm_num, by norm_num⟩,
   (conmun_zero_doping (1 / 2) 0 300 0 0 0 0 0 (by norm_num) (by norm_num) (by norm_num)
    (by norm_num)).1⟩

/-- C5 (claim as stated fails): at `xcomp = 0`, `temp = 300` the mobility written by
the InGaN `conmun` does not converge to the `mu2` value `mu2n_GaN·(300/300) = 1000`
as `nd → +∞` (its limit is `mu1n_GaN = 55`). -/
theorem conmun_limit_not_mu2 :
    ¬ Filter.Tendsto (fun nd : ℝ => (InGaN.conmun Real.rpow 0 0 300 nd 0 0 0 0).val)
        Filter.atTop (nhds (harmonicMix (mu2n_InN : ℝ) mu2n_GaN 0 * (300 / 300))) := by
  intro h
  have hc : (0 : ℝ) < linearMix ncritn_InN ncritn_GaN 0 * (300 / 300) :=
    mul_pos (ncritn_pos 0 le_rfl zero_le_one) (by norm_num)
  have hN : Filter.Tendsto (fun nd : ℝ => nd + 0) Filter.atTop Filter.atTop := by
    simpa using (Filter.tendsto_id : Filter.Tendsto (fun nd : ℝ => nd) Filter.atTop Filter.atTop)
  have h1 := ct_tendsto Filter.atTop (fun nd : ℝ => nd + 0)
    (harmonicMix (mu1n_InN : ℝ) mu1n_GaN 0 * (300 / 300))
    (harmonicMix (mu2n_InN : ℝ) mu2n_GaN 0 * (300 / 300)) _ (1 * (300 / 300)) hc
    (by norm_num) hN
  simp only [conmun_val_InGaN] at h
  have h2 := tendsto_nhds_unique h h1
  simp only [harmonicMix, mu1n_InN, mu1n_GaN, mu2n_InN, mu2n_GaN] at h2
  norm_num at h2

/-- C5 (amended): for `xcomp` in `[0,1]` and `temp > 0`, along any family of dopings
whose total `nd + na` tends to `+∞`, the mobility written by `conmun` (resp. `conmup`)
converges to the `mu1` term `mu1(x)·(T/300)`, with `mu1(x)` the harmonically mixed
alloy value; at `T = 300` the limit is `mu1(x)`. -/
theorem conmun_infinite_doping_limit {ι : Type} (l : Filter ι) (nd na : ι → ℝ)
    (xcomp ycomp temp x y tau : ℝ) (hx0 : 0 ≤ xcomp) (hx1 : xcomp ≤ 1) (hT : 0 < temp)
    (hN : Filter.Tendsto (fun i => nd i + na i) l Filter.atTop) :
    Filter.Tendsto (fun i => (InGaN.conmun Real.rpow xcomp ycomp temp (nd i) (na i) x y tau).val)
        l (nhds (harmonicMix mu1n_InN mu1n_GaN xcomp * (temp / 300)))
    ∧ Filter.Tendsto
        (fun i => (InGaN.conmup Real.rpow xcomp ycomp temp (nd i) (na i) x y tau).val)
        l (nhds (harmonicMix mu1p_InN mu1p_GaN xcomp * (temp / 300)))
    ∧ (temp = 300 →
        Filter.Tendsto
          (fun i => (InGaN.conmun Real.rpow xcomp ycomp temp (nd i) (na i) x y tau).val)
          l (nhds (harmonicMix mu1n_InN mu1n_GaN xcomp))
        ∧ Filter.Tendsto
          (fun i => (InGaN.conmup Real.rpow xcomp ycomp temp (nd i) (na i) x y tau).val)
          l (nhds (harmonicMix mu1p_InN mu1p_GaN xcomp))) := by
  have ht : (0 : ℝ) < temp / 300 := by positivity
  have hcn := mul_pos (ncritn_pos xcomp hx0 hx1) ht
  have hcp := mul_pos (ncritp_pos xcomp hx0 hx1) ht
  have a1 : Filter.Tendsto
      (fun i => (InGaN.conmun Real.rpow xcomp ycomp temp (nd i) (na i) x y tau).val)
      l (nhds (harmonicMix mu1n_InN mu1n_GaN xcomp * (temp / 300))) := by
    simp only [conmun_val_InGaN]
    exact ct_tendsto l (fun i => nd i + na i) _ _ _ _ hcn (by positivity) hN
  have a2 : Filter.Tendsto
      (fun i => (InGaN.conmup Real.rpow xcomp ycomp temp (nd i) (na i) x y tau).val)
      l (nhds (harmonicMix mu1p_InN mu1p_GaN xcomp * (temp / 300))) := by
    simp only [conmup_val_InGaN]
    exact ct_tendsto l (fun i => nd i + na i) _ _ _ _ hcp (by positivity) hN
  refine ⟨a1, a2, ?_⟩
  intro h300
  have e : temp / 300 = 1 := by rw [h300]; norm_num
  simp only [e, mul_one] at a1 a2
  exact ⟨a1, a2⟩

/-- Witness for C5 (amended): `xcomp = 1/2`, `temp = 300`, `na = 0` and `nd → +∞`. -/
theorem conmun_infinite_doping_limit_witness :
    ((0 : ℝ) ≤ 1 / 2 ∧ (1 / 2 : ℝ) ≤ 1 ∧ (0 : ℝ) < 300
      ∧ Filter.Tendsto (fun i : ℝ => i + 0) Filter.atTop Filter.atTop)
    ∧ Filter.Tendsto (fun i : ℝ => (InGaN.conmun Real.rpow (1 / 2) 0 300 i 0 0 0 0).val)
        Filter.atTop (nhds (harmonicMix mu1n_InN mu1n_GaN (1 / 2) * (300 / 300))) :=
  have hN : Filter.Tendsto (fun i : ℝ => i + 0) Filter.atTop Filter.atTop := by
    simpa using (Filter.tendsto_id : Filter.Tendsto (fun i : ℝ => i) Filter.atTop Filter.atTop)
  ⟨⟨by norm_num, by norm_num, by norm_num, hN⟩,
   (conmun_infinite_doping_limit Filter.atTop (fun i : ℝ => i) (fun _ => 0) (1 / 2) 0 300 0 0 0
      (by norm_num) (by norm_num) (by norm_num) hN).1⟩

/-- C6 (claim as stated fails): at `xcomp = 0`, `temp = 600` and zero doping the InGaN
`conmun` writes `2000`, above `max(mu1n(0), mu2n(0)) = 1000`. -/
theorem conmun_exceeds_max_at_600 :
    (InGaN.conmun Real.rpow 0 0 600 0 0 0 0 0).val = 2000
    ∧ max (harmonicMix (mu1n_InN : ℝ) mu1n_GaN 0) (harmonicMix mu2n_InN mu2n_GaN 0) = 1000
    ∧ ¬ ((InGaN.conmun Real.rpow 0 0 600 0 0 0 0 0).val
          ≤ max (harmonicMix (mu1n_InN : ℝ) mu1n_GaN 0) (harmonicMix mu2n_InN mu2n_GaN 0)) := by
  have hv : (InGaN.conmun Real.rpow 0 0 600 0 0 0 0 0).val = 2000 := by
    rw [conmun_val_InGaN, add_zero, ct_zero_doping _ _ _ _ (by norm_num)]
    simp only [harmonicMix, mu2n_InN, mu2n_GaN]
    norm_num
  have hm : max (harmonicMix (mu1n_InN : ℝ) mu1n_GaN 0) (harmonicMix mu2n_InN mu2n_GaN 0)
      = 1000 := by
    simp only [harmonicMix, mu1n_InN, mu1n_GaN, mu2n_InN, mu2n_GaN]
    norm_num
  refine ⟨hv, hm, ?_⟩
  rw [hv, hm]
  norm_num

/-- C6 (amended): for `xcomp` in `[0,1]`, `temp > 0` and `nd, na ≥ 0`, the mobility
written by the InGaN `conmun` lies between `min(mu1n(x), mu2n(x))·(T/300)` and
`max(mu1n(x), mu2n(x))·(T/300)`, with the harmonically mixed `mu1n(x)`, `mu2n(x)`;
likewise `conmup` with the hole constants.  At `T = 300` the factor is `1` and the
bounds are `min(mu1, mu2)` and `max(mu1, mu2)` themselves. -/
theorem conmun_between_scaled_bounds (xcomp ycomp temp nd na x y tau : ℝ) (hx0 : 0 ≤ xcomp)
    (hx1 : xcomp ≤ 1) (hT : 0 < temp) (hnd : 0 ≤ nd) (hna : 0 ≤ na) :
    (min (harmonicMix mu1n_InN mu1n_GaN xcomp) (harmonicMix mu2n_InN mu2n_GaN xcomp)
          * (temp / 300)
        ≤ (InGaN.conmun Real.rpow xcomp ycomp temp nd na x y tau).val
      ∧ (InGaN.conmun Real.rpow xcomp ycomp temp nd na x y tau).val
        ≤ max (harmonicMix mu1n_InN mu1n_GaN xcomp) (harmonicMix mu2n_InN mu2n_GaN xcomp)
          * (temp / 300))
    ∧ (min (harmonicMix mu1p_InN mu1p_GaN xcomp) (harmonicMix mu2p_InN mu2p_GaN xcomp)
          * (temp / 300)
        ≤ (InGaN.conmup Real.rpow xcomp ycomp temp nd na x y tau).val
      ∧ (InGaN.conmup Real.rpow xcomp ycomp temp nd na x y tau).val
        ≤ max (harmonicMix mu1p_InN mu1p_GaN xcomp) (harmonicMix mu2p_InN mu2p_GaN xcomp)
          * (temp / 300))
    ∧ (temp = 300 →
        (min (harmonicMix mu1n_InN mu1n_GaN xcomp) (harmonicMix mu2n_InN mu2n_GaN xcomp)
            ≤ (InGaN.conmun Real.rpow xcomp ycomp temp nd na x y tau).val
          ∧ (InGaN.conmun Real.rpow xcomp ycomp temp nd na x y tau).val
            ≤ max (harmonicMix mu1n_InN mu1n_GaN xcomp) (harmonicMix mu2n_InN mu2n_GaN xcomp))
        ∧ (min (harmonicMix mu1p_InN mu1p_GaN xcomp) (harmonicMix mu2p_InN mu2p_GaN xcomp)
            ≤ (InGaN.conmup Real.rpow xcomp ycomp temp nd na x y tau).val
          ∧ (InGaN.conmup Real.rpow xcomp ycomp temp nd na x y tau).val
            ≤ max (harmonicMix mu1p_InN mu1p_GaN xcomp)
                (harmonicMix mu2p_InN mu2p_GaN xcomp))) := by
  have ht : (0 : ℝ) < temp / 300 := by positivity
  have hcn := mul_pos (ncritn_pos xcomp hx0 hx1) ht
  have hcp := mul_pos (ncritp_pos xcomp hx0 hx1) ht
  have hN : 0 ≤ nd + na := add_nonneg hnd hna
  have pn : 0 ≤ ((nd + na) / (linearMix ncritn_InN ncritn_GaN xcomp * (temp / 300)))
      ^ (1 * (temp / 300)) := Real.rpow_nonneg (div_nonneg hN hcn.le) _
  have pp : 0 ≤ ((nd + na) / (linearMix ncritp_InN ncritp_GaN xcomp * (temp / 300)))
      ^ (2 * (temp / 300)) := Real.rpow_nonneg (div_nonneg hN hcp.le) _
  have bn := ct_between (harmonicMix mu1n_InN mu1n_GaN xcomp * (temp / 300))
    (harmonicMix mu2n_InN mu2n_GaN xcomp * (temp / 300)) _ pn
  have bp := ct_between (harmonicMix mu1p_InN mu1p_GaN xcomp * (temp / 300))
    (harmonicMix mu2p_InN mu2p_GaN xcomp * (temp / 300)) _ pp
  rw [← conmun_val_InGaN xcomp ycomp temp nd na x y tau, ← min_mul_of_nonneg _ _ ht.le,
    ← max_mul_of_nonneg _ _ ht.le] at bn
  rw [← conmup_val_InGaN xcomp ycomp temp nd na x y tau, ← min_mul_of_nonneg _ _ ht.le,
    ← max_mul_of_nonneg _ _ ht.le] at bp
  refine ⟨bn, bp, ?_⟩
  intro h300
  have e : temp / 300 = 1 := by rw [h300]; norm_num
  simp only [e, mul_one] at bn bp
  exact ⟨bn, bp⟩

/-- Witness for C6 (amended) at `xcomp = 1/2`, `temp = 300`, `nd = 1e18`, `na = 0`. -/
theorem conmun_between_scaled_bounds_witness :
    ((0 : ℝ) ≤ 1 / 2 ∧ (1 / 2 : ℝ) ≤ 1 ∧ (0 : ℝ) < 300 ∧ (0 : ℝ) ≤ 1e18 ∧ (0 : ℝ) ≤ 0)
    ∧ (min (harmonicMix mu1n_InN mu1n_GaN (1 / 2)) (harmonicMix mu2n_InN mu2n_GaN (1 / 2))
          * (300 / 300)
        ≤ (InGaN.conmun Real.rpow (1 / 2) 0 300 1e18 0 0 0 0).val
      ∧ (InGaN.conmun Real.rpow (1 / 2) 0 300 1e18 0 0 0 0).val
        ≤ max (harmonicMix mu1n_InN mu1n_GaN (1 / 2)) (harmonicMix mu2n_InN mu2n_GaN (1 / 2))
          * (300 / 300)) :=
  ⟨⟨by norm_num, by norm_num, by norm_num, by norm_num, le_rfl⟩,
   (conmun_between_scaled_bounds (1 / 2) 0 300 1e18 0 0 0 0 (by norm_num) (by norm_num)
      (by norm_num) (by norm_num) le_rfl).1⟩

/-! ## Complex refractive index: helper lemmas -/

open Filter Topology

/-- On `x ≤ 1` the alloy gap `Eg(x)` used by `index` is positive (it is at least `0.7`). -/
lemma Eg_pos (x : ℝ) (_h0 : 0 ≤ x) (h1 : x ≤ 1) :
    0 < bowingMix (eg300_InN : ℝ) eg300_GaN BowingBandgap x := by
  simp only [bowingMix, eg300_InN, eg300_GaN, BowingBandgap]
  nlinarith [mul_nonneg (sub_nonneg.2 h1) (sub_nonneg.2 h1)]

/-- Value written to `*n` by the InGaN `index` on the below-gap branch. -/
lemma index_n_below_InGaN (lam T x y nc pc em : ℝ)
    (h : 1.23984 / lam < bowingMix (eg300_InN : ℝ) eg300_GaN BowingBandgap x) :
    (InGaN.index Real.sqrt lam T x y nc pc em).n
      = √((13.55 * x + 9.31 * (1 - x)) * bowingMix eg300_InN eg300_GaN BowingBandgap x
            * bowingMix eg300_InN eg300_GaN BowingBandgap x
            * (2 - √(1 + 1.23984 / lam / bowingMix eg300_InN eg300_GaN BowingBandgap x)
                 - √(1 - 1.23984 / lam / bowingMix eg300_InN eg300_GaN BowingBandgap x))
            / (1.23984 / lam * (1.23984 / lam)) + (2.05 * x + 3.03 * (1 - x))) := by
  have e : (1.0 : ℝ) = 1 := by norm_num
  have e2 : (2.0 : ℝ) = 2 := by norm_num
  have h' : ¬ (1.23984 / lam ≥ (x * eg300_InN) + ((1.0 - x) * eg300_GaN)
      - (BowingBandgap * x * (1.0 - x))) := by
    rw [e]; exact not_le.mpr h
  simp only [InGaN.index, if_neg h']
  simp only [bowingMix, e, e2]

/-- Value written to `*n` by the InGaN `index` on the above-gap branch. -/
lemma index_n_above_InGaN (lam T x y nc pc em : ℝ)
    (h : bowingMix (eg300_InN : ℝ) eg300_GaN BowingBandgap x ≤ 1.23984 / lam) :
    (InGaN.index Real.sqrt lam T x y nc pc em).n
      = √((13.55 * x + 9.31 * (1 - x)) * 0.5857864376269 + (2.05 * x + 3.03 * (1 - x))) := by
  have e : (1.0 : ℝ) = 1 := by norm_num
  have h' : (1.23984 / lam ≥ (x * eg300_InN) + ((1.0 - x) * eg300_GaN)
      - (BowingBandgap * x * (1.0 - x))) := by
    rw [e]; exact h
  simp only [InGaN.index, if_pos h']
  simp only [e]

/-- As the wavelength decreases to the crossing `1.23984/Eg` (photon energy rising to
the gap), the `n` written by the InGaN `index` tends to `√(A·(2 − √2) + B)`. -/
lemma index_n_tendsto_below_InGaN (T x y nc pc em : ℝ) (h0 : 0 ≤ x) (h1 : x ≤ 1) :
    Tendsto (fun lam => (InGaN.index Real.sqrt lam T x y nc pc em).n)
      (𝓝[>] (1.23984 / bowingMix (eg300_InN : ℝ) eg300_GaN BowingBandgap x))
      (𝓝 (√((13.55 * x + 9.31 * (1 - x)) * (2 - √2) + (2.05 * x + 3.03 * (1 - x))))) := by
  set Eg := bowingMix (eg300_InN : ℝ) eg300_GaN BowingBandgap x with hEg
  have hpos : 0 < Eg := Eg_pos x h0 h1
  have hl0 : 0 < 1.23984 / Eg := by positivity
  -- the below-gap closed form, as a function of the wavelength
  set g : ℝ → ℝ := fun lam =>
    √((13.55 * x + 9.31 * (1 - x)) * Eg * Eg
        * (2 - √(1 + 1.23984 / lam / Eg) - √(1 - 1.23984 / lam / Eg))
        / (1.23984 / lam * (1.23984 / lam)) + (2.05 * x + 3.03 * (1 - x))) with hg
  have hE : ContinuousAt (fun lam : ℝ => 1.23984 / lam) (1.23984 / Eg) :=
    continuousAt_const.div continuousAt_id hl0.ne'
  have hEval : (1.23984 : ℝ) / (1.23984 / Eg) = Eg := by
    field_simp
  have hcont : ContinuousAt g (1.23984 / Eg) := by
    have hs1 : ContinuousAt (fun lam : ℝ => √(1 + 1.23984 / lam / Eg)) (1.23984 / Eg) :=
      (continuousAt_const.add (hE.div_const Eg)).sqrt
    have hs2 : ContinuousAt (fun lam : ℝ => √(1 - 1.23984 / lam / Eg)) (1.23984 / Eg) :=
      (continuousAt_const.sub (hE.div_const Eg)).sqrt
    have hden : (1.23984 : ℝ) / (1.23984 / Eg) * (1.23984 / (1.23984 / Eg)) ≠ 0 := by
      rw [hEval]; positivity
    exact (((continuousAt_const.mul ((continuousAt_const.sub hs1).sub hs2)).div
      (hE.mul hE) hden).add continuousAt_const).sqrt
  have hval : g (1.23984 / Eg)
      = √((13.55 * x + 9.31 * (1 - x)) * (2 - √2) + (2.05 * x + 3.03 * (1 - x))) := by
    simp only [hg, hEval]
    have e1 : (1 : ℝ) + Eg / Eg = 2 := by rw [div_self hpos.ne']; norm_num
    have e2 : (1 : ℝ) - Eg / Eg = 0 := by rw [div_self hpos.ne']; norm_num
    rw [e1, e2, Real.sqrt_zero, sub_zero]
    congr 2
    field_simp
    ring
  have hlim : Tendsto g (𝓝[>] (1.23984 / Eg)) (𝓝 (g (1.23984 / Eg))) :=
    tendsto_nhdsWithin_of_tendsto_nhds hcont
  rw [hval] at hlim
  refine hlim.congr' ?_
  refine eventually_nhdsWithin_of_forall ?_
  intro lam hlam
  have hlam' : 1.23984 / Eg < lam := hlam
  have hlt : 1.23984 / lam < Eg := by
    have hlp : 0 < lam := lt_trans hl0 hlam'
    rw [div_lt_iff₀ hlp]
    rw [div_lt_iff₀ hpos] at hlam'
    linarith
  exact (index_n_below_InGaN lam T x y nc pc em hlt).symm

/-- The above-gap value of `n` is strictly below the limit of the below-gap values:
`0.5857864376269 < 2 − √2`. -/
lemma index_n_gap_lt (x : ℝ) (h0 : 0 ≤ x) (h1 : x ≤ 1) :
    √((13.55 * x + 9.31 * (1 - x)) * 0.5857864376269 + (2.05 * x + 3.03 * (1 - x)))
      < √((13.55 * x + 9.31 * (1 - x)) * (2 - √2) + (2.05 * x + 3.03 * (1 - x))) := by
  have hA : (0 : ℝ) < 13.55 * x + 9.31 * (1 - x) := by nlinarith
  have hB : (0 : ℝ) < 2.05 * x + 3.03 * (1 - x) := by nlinarith
  have hs : √2 < (1.4142135623731 : ℝ) := by
    rw [Real.sqrt_lt' (by norm_num)]
    norm_num
  apply Real.sqrt_lt_sqrt
  · positivity
  · have : (0.5857864376269 : ℝ) < 2 - √2 := by linarith
    nlinarith


/-- Value written to `*k` by the InGaN `index`. -/
lemma index_k_eq_InGaN (lam T x y nc pc em : ℝ) :
    (InGaN.index Real.sqrt lam T x y nc pc em).k
      = lam * 1e-4
          * (if bowingMix (eg300_InN : ℝ) eg300_GaN BowingBandgap x ≤ 1.23984 / lam then
              1e5 * √((3.525016201 - 18.297594473 * x + 40.221588785 * x * x
                        - 37.52274528 * x * x * x + 12.772362503 * x * x * x * x)
                      * (1.23984 / lam - bowingMix eg300_InN eg300_GaN BowingBandgap x)
                    + (-0.665086247 + 3.616441372 * x - 2.460307692 * x * x)
                      * (1.23984 / lam - bowingMix eg300_InN eg300_GaN BowingBandgap x)
                      * (1.23984 / lam - bowingMix eg300_InN eg300_GaN BowingBandgap x))
             else 0)
          / (4 * 3.141592653589793) := by
  have e : (1.0 : ℝ) = 1 := by norm_num
  have e0 : (0.0 : ℝ) = 0 := by norm_num
  have e4 : (4.0 : ℝ) = 4 := by norm_num
  simp only [InGaN.index, bowingMix, e, e0, e4, ge_iff_le]

/-- The `k` written by the InGaN `index` is continuous in the wavelength at the
crossing `1.23984/Eg`. -/
lemma index_k_continuousAt_InGaN (T x y nc pc em : ℝ) (h0 : 0 ≤ x) (h1 : x ≤ 1) :
    ContinuousAt (fun lam => (InGaN.index Real.sqrt lam T x y nc pc em).k)
      (1.23984 / bowingMix (eg300_InN : ℝ) eg300_GaN BowingBandgap x) := by
  set Eg := bowingMix (eg300_InN : ℝ) eg300_GaN BowingBandgap x with hEg
  have hpos : 0 < Eg := Eg_pos x h0 h1
  have hl0 : 0 < 1.23984 / Eg := by positivity
  have hE : ContinuousAt (fun lam : ℝ => 1.23984 / lam) (1.23984 / Eg) :=
    continuousAt_const.div continuousAt_id hl0.ne'
  set C : ℝ := 3.525016201 - 18.297594473 * x + 40.221588785 * x * x
    - 37.52274528 * x * x * x + 12.772362503 * x * x * x * x with hC
  set D : ℝ := -0.665086247 + 3.616441372 * x - 2.460307692 * x * x with hD
  -- the absorption as a function of the photon energy
  have hG : Continuous (fun e : ℝ =>
      if Eg ≤ e then 1e5 * √(C * (e - Eg) + D * (e - Eg) * (e - Eg)) else 0) := by
    refine Continuous.if_le ?_ continuous_const continuous_const continuous_id ?_
    · exact continuous_const.mul (Continuous.sqrt (by continuity))
    · intro e he
      have : e = Eg := he.symm
      simp [this]
  have hcomp : ContinuousAt (fun lam : ℝ =>
      if Eg ≤ 1.23984 / lam then
        1e5 * √(C * (1.23984 / lam - Eg) + D * (1.23984 / lam - Eg) * (1.23984 / lam - Eg))
      else 0) (1.23984 / Eg) :=
    hG.continuousAt.comp (f := fun lam : ℝ => 1.23984 / lam) hE
  have hk : ContinuousAt (fun lam : ℝ => lam * 1e-4
      * (if Eg ≤ 1.23984 / lam then
          1e5 * √(C * (1.23984 / lam - Eg) + D * (1.23984 / lam - Eg) * (1.23984 / lam - Eg))
         else 0) / (4 * 3.141592653589793)) (1.23984 / Eg) :=
    ((continuousAt_id.mul continuousAt_const).mul hcomp).div_const _
  have hfun : (fun lam => (InGaN.index Real.sqrt lam T x y nc pc em).k)
      = fun lam : ℝ => lam * 1e-4
      * (if Eg ≤ 1.23984 / lam then
          1e5 * √(C * (1.23984 / lam - Eg) + D * (1.23984 / lam - Eg) * (1.23984 / lam - Eg))
         else 0) / (4 * 3.141592653589793) := by
    funext lam
    exact index_k_eq_InGaN lam T x y nc pc em
  rw [hfun]
  exact hk

/-- Value written to `*k` by the CZTS `index`: below the gap the real square root of
a non-positive number is `0`, so one expression covers both branches. -/
lemma index_k_eq_CZTS (lam T x y nc pc em : ℝ) :
    (CZTS.index Real.sqrt lam T x y nc pc em).k
      = 2 * 1.5 / (1.23984 / lam) * 0.2 * √((1.23984 / lam - 1.5) / 1.5) := by
  have e0 : (0.0 : ℝ) = 0 := by norm_num
  have e2 : (2.0 : ℝ) = 2 := by norm_num
  simp only [CZTS.index, e0, e2]
  split_ifs with h
  · rfl
  · have hneg : (1.23984 / lam - 1.5) / 1.5 ≤ 0 := by
      have : 1.23984 / lam < 1.5 := not_le.mp h
      apply div_nonpos_of_nonpos_of_nonneg <;> linarith
    rw [Real.sqrt_eq_zero_of_nonpos hneg, mul_zero]

/-- The `k` written by the CZTS `index` is continuous in the wavelength at the
crossing `1.23984/1.5`. -/
lemma index_k_continuousAt_CZTS (T x y nc pc em : ℝ) :
    ContinuousAt (fun lam => (CZTS.index Real.sqrt lam T x y nc pc em).k) (1.23984 / 1.5) := by
  have hl0 : (0 : ℝ) < 1.23984 / 1.5 := by norm_num
  have hE : ContinuousAt (fun lam : ℝ => 1.23984 / lam) (1.23984 / 1.5) :=
    continuousAt_const.div continuousAt_id hl0.ne'
  have hfun : (fun lam => (CZTS.index Real.sqrt lam T x y nc pc em).k)
      = fun lam : ℝ => 2 * 1.5 / (1.23984 / lam) * 0.2 * √((1.23984 / lam - 1.5) / 1.5) := by
    funext lam
    exact index_k_eq_CZTS lam T x y nc pc em
  rw [hfun]
  have hne : (1.23984 : ℝ) / (1.23984 / 1.5) ≠ 0 := by norm_num
  exact ((continuousAt_const.div hE hne).mul continuousAt_const).mul
    ((hE.sub continuousAt_const).div_const _).sqrt


/-- The quartic `C(x)` of the InGaN absorption model is positive for every `x`. -/
lemma absorption_C_pos (x : ℝ) :
    (0 : ℝ) < 3.525016201 - 18.297594473 * x + 40.221588785 * x * x
      - 37.52274528 * x * x * x + 12.772362503 * x * x * x * x := by
  nlinarith [sq_nonneg (x * x - 1.4689 * x + 0.4), sq_nonneg (x - 0.6725)]

/-- Near the crossing wavelength the radicand of the above-gap absorption is
non-negative on the above-gap side. -/
lemma radicand_nonneg_near_gap_InGaN (x : ℝ) (h0 : 0 ≤ x) (h1 : x ≤ 1) :
    ∀ᶠ lam in 𝓝 (1.23984 / bowingMix (eg300_InN : ℝ) eg300_GaN BowingBandgap x),
      bowingMix (eg300_InN : ℝ) eg300_GaN BowingBandgap x ≤ 1.23984 / lam →
      0 ≤ (3.525016201 - 18.297594473 * x + 40.221588785 * x * x
              - 37.52274528 * x * x * x + 12.772362503 * x * x * x * x)
            * (1.23984 / lam - bowingMix eg300_InN eg300_GaN BowingBandgap x)
          + (-0.665086247 + 3.616441372 * x - 2.460307692 * x * x)
            * (1.23984 / lam - bowingMix eg300_InN eg300_GaN BowingBandgap x)
            * (1.23984 / lam - bowingMix eg300_InN eg300_GaN BowingBandgap x) := by
  set Eg := bowingMix (eg300_InN : ℝ) eg300_GaN BowingBandgap x with hEg
  have hpos : 0 < Eg := Eg_pos x h0 h1
  have hl0 : 0 < 1.23984 / Eg := by positivity
  have hE : ContinuousAt (fun lam : ℝ => 1.23984 / lam) (1.23984 / Eg) :=
    continuousAt_const.div continuousAt_id hl0.ne'
  have hEval : (1.23984 : ℝ) / (1.23984 / Eg) = Eg := by
    field_simp
  have hCpos := absorption_C_pos x
  set C : ℝ := 3.525016201 - 18.297594473 * x + 40.221588785 * x * x
    - 37.52274528 * x * x * x + 12.772362503 * x * x * x * x with hC
  set D : ℝ := -0.665086247 + 3.616441372 * x - 2.460307692 * x * x with hD
  have hε : 0 < C / (|D| + 1) := by positivity
  have hball := hE (Metric.ball_mem_nhds _ hε)
  filter_upwards [hball] with lam hlam hge
  have hd : |1.23984 / lam - Eg| < C / (|D| + 1) := by
    have := Metric.mem_ball.mp hlam
    rwa [Real.dist_eq, hEval] at this
  have hd0 : 0 ≤ 1.23984 / lam - Eg := by linarith
  rw [abs_of_nonneg hd0] at hd
  have hD1 : (0 : ℝ) < |D| + 1 := by positivity
  have h2 : (1.23984 / lam - Eg) * (|D| + 1) < C := by
    rwa [lt_div_iff₀ hD1] at hd
  have h3 : -|D| ≤ D := neg_abs_le D
  have h4 : 0 ≤ C + D * (1.23984 / lam - Eg) := by
    nlinarith [mul_nonneg hd0 (by linarith : 0 ≤ D + |D|)]
  nlinarith [mul_nonneg hd0 h4]

/-! ## Complex refractive index -/

/-- C8: for every wavelength `λ > 0` whose photon energy `Eph = 1.23984/λ` is strictly
below the gap used by the optical query (`Eg(x)` with bowing for InGaN, `1.5` for
CZTS), `index` writes `k = 0` exactly, whatever `sqrt` returns and whatever the other
arguments are. -/
theorem index_below_gap_k_zero (sqrt : K → K)
    (lambda temp xcomp ycomp nconc pconc emag : K) (hl : 0 < lambda) :
    (1.23984 / lambda < xcomp * eg300_InN + (1 - xcomp) * eg300_GaN
          - BowingBandgap * xcomp * (1 - xcomp) →
        (InGaN.index sqrt lambda temp xcomp ycomp nconc pconc emag).k = 0)
    ∧ (1.23984 / lambda < 1.5 →
        (CZTS.index sqrt lambda temp xcomp ycomp nconc pconc emag).k = 0) := by
  have _ := hl
  constructor
  · intro h
    have h' : ¬ (1.23984 / lambda ≥ (xcomp * eg300_InN) + ((1.0 - xcomp) * eg300_GaN)
        - (BowingBandgap * xcomp * (1.0 - xcomp))) := by
      have e : (1.0 : K) = 1 := by norm_num
      rw [e]
      exact not_le.mpr h
    simp only [InGaN.index, if_neg h']
    norm_num
  · intro h
    have h' : ¬ (1.23984 / lambda ≥ (1.5 : K)) := not_le.mpr h
    simp only [CZTS.index, if_neg h']
    norm_num

/-- Witness for C8 at `λ = 1` µm (`Eph = 1.23984` eV) and `xcomp = 0` (`Eg = 3.42` eV),
on the rationals with the identity in place of `sqrt`. -/
theorem index_below_gap_k_zero_witness :
    ((0 : ℚ) < 1
      ∧ (1.23984 / 1 : ℚ) < 0 * eg300_InN + (1 - 0) * eg300_GaN - BowingBandgap * 0 * (1 - 0)
      ∧ (1.23984 / 1 : ℚ) < 1.5)
    ∧ (InGaN.index (fun a => a) (1 : ℚ) 300 0 0 0 0 0).k = 0
    ∧ (CZTS.index (fun a => a) (1 : ℚ) 300 0 0 0 0 0).k = 0 :=
  have h1 : (1.23984 / 1 : ℚ) < 0 * eg300_InN + (1 - 0) * eg300_GaN
      - BowingBandgap * 0 * (1 - 0) := by
    simp only [eg300_InN, eg300_GaN, BowingBandgap]; norm_num
  have h2 : (1.23984 / 1 : ℚ) < 1.5 := by norm_num
  ⟨⟨by norm_num, h1, h2⟩,
   (index_below_gap_k_zero (fun a => a) (1 : ℚ) 300 0 0 0 0 0 (by norm_num)).1 h1,
   (index_below_gap_k_zero (fun a => a) (1 : ℚ) 300 0 0 0 0 0 (by norm_num)).2 h2⟩

/-- For `xcomp` in `[0,1]`, with `A = 13.55·x + 9.31·(1−x)` and
`B = 2.05·x + 3.03·(1−x)`: as the wavelength decreases to the crossing `1.23984/Eg(x)`
the below-gap `n` tends to `√(A·(2 − √2) + B)`; whenever `Eph ≥ Eg` the value written
is `√(A·0.5857864376269 + B)`; and the latter is strictly below the former. -/
lemma index_n_one_sided_values (temp xcomp ycomp nconc pconc emag : ℝ) (hx0 : 0 ≤ xcomp)
    (hx1 : xcomp ≤ 1) :
    Filter.Tendsto (fun lam => (InGaN.index Real.sqrt lam temp xcomp ycomp nconc pconc emag).n)
        (nhdsWithin (1.23984 / bowingMix (eg300_InN : ℝ) eg300_GaN BowingBandgap xcomp)
          (Set.Ioi (1.23984 / bowingMix (eg300_InN : ℝ) eg300_GaN BowingBandgap xcomp)))
        (nhds (√((13.55 * xcomp + 9.31 * (1 - xcomp)) * (2 - √2)
                  + (2.05 * xcomp + 3.03 * (1 - xcomp)))))
    ∧ (∀ lam : ℝ, bowingMix (eg300_InN : ℝ) eg300_GaN BowingBandgap xcomp ≤ 1.23984 / lam →
        (InGaN.index Real.sqrt lam temp xcomp ycomp nconc pconc emag).n
          = √((13.55 * xcomp + 9.31 * (1 - xcomp)) * 0.5857864376269
                + (2.05 * xcomp + 3.03 * (1 - xcomp))))
    ∧ √((13.55 * xcomp + 9.31 * (1 - xcomp)) * 0.5857864376269
            + (2.05 * xcomp + 3.03 * (1 - xcomp)))
        < √((13.55 * xcomp + 9.31 * (1 - xcomp)) * (2 - √2)
            + (2.05 * xcomp + 3.03 * (1 - xcomp))) :=
  ⟨index_n_tendsto_below_InGaN temp xcomp ycomp nconc pconc emag hx0 hx1,
   fun lam h => index_n_above_InGaN lam temp xcomp ycomp nconc pconc emag h,
   index_n_gap_lt xcomp hx0 hx1⟩

/-- C10: for `xcomp` in `[0,1]` the `k` written by the InGaN `index` is, as a function
of the wavelength, continuous at the crossing `λ0 = 1.23984/Eg(x)`, where it is `0`;
just above the gap the radicand of the absorption is non-negative, so the square root
is a real one there.  The `k` written by the CZTS `index` is continuous at its
crossing `1.23984/1.5`, where it is `0`. -/
theorem index_k_continuous_at_gap (temp xcomp ycomp nconc pconc emag : ℝ) (hx0 : 0 ≤ xcomp)
    (hx1 : xcomp ≤ 1) :
    (ContinuousAt (fun lam => (InGaN.index Real.sqrt lam temp xcomp ycomp nconc pconc emag).k)
        (1.23984 / bowingMix (eg300_InN : ℝ) eg300_GaN BowingBandgap xcomp)
      ∧ (InGaN.index Real.sqrt (1.23984 / bowingMix (eg300_InN : ℝ) eg300_GaN BowingBandgap xcomp)
          temp xcomp ycomp nconc pconc emag).k = 0
      ∧ ∀ᶠ lam in nhds (1.23984 / bowingMix (eg300_InN : ℝ) eg300_GaN BowingBandgap xcomp),
          bowingMix (eg300_InN : ℝ) eg300_GaN BowingBandgap xcomp ≤ 1.23984 / lam →
          0 ≤ (3.525016201 - 18.297594473 * xcomp + 40.221588785 * xcomp * xcomp
                  - 37.52274528 * xcomp * xcomp * xcomp
                  + 12.772362503 * xcomp * xcomp * xcomp * xcomp)
                * (1.23984 / lam - bowingMix eg300_InN eg300_GaN BowingBandgap xcomp)
              + (-0.665086247 + 3.616441372 * xcomp - 2.460307692 * xcomp * xcomp)
                * (1.23984 / lam - bowingMix eg300_InN eg300_GaN BowingBandgap xcomp)
                * (1.23984 / lam - bowingMix eg300_InN eg300_GaN BowingBandgap xcomp))
    ∧ (ContinuousAt (fun lam => (CZTS.index Real.sqrt lam temp xcomp ycomp nconc pconc emag).k)
        (1.23984 / 1.5)
      ∧ (CZTS.index Real.sqrt (1.23984 / 1.5) temp xcomp ycomp nconc pconc emag).k = 0) := by
  have hpos : 0 < bowingMix (eg300_InN : ℝ) eg300_GaN BowingBandgap xcomp :=
    Eg_pos xcomp hx0 hx1
  have hEval : (1.23984 : ℝ) / (1.23984 / bowingMix (eg300_InN : ℝ) eg300_GaN BowingBandgap xcomp)
      = bowingMix (eg300_InN : ℝ) eg300_GaN BowingBandgap xcomp := by
    field_simp
  refine ⟨⟨index_k_continuousAt_InGaN temp xcomp ycomp nconc pconc emag hx0 hx1, ?_,
    radicand_nonneg_near_gap_InGaN xcomp hx0 hx1⟩,
    index_k_continuousAt_CZTS temp xcomp ycomp nconc pconc emag, ?_⟩
  · rw [index_k_eq_InGaN, hEval]
    simp
  · rw [index_k_eq_CZTS]
    norm_num

/-- Witness for C10 at `xcomp = 1/2`. -/
theorem index_k_continuous_at_gap_witness :
    ((0 : ℝ) ≤ 1 / 2 ∧ (1 / 2 : ℝ) ≤ 1)
    ∧ ContinuousAt (fun lam => (InGaN.index Real.sqrt lam 300 (1 / 2) 0 0 0 0).k)
        (1.23984 / bowingMix (eg300_InN : ℝ) eg300_GaN BowingBandgap (1 / 2)) :=
  ⟨⟨by norm_num, by norm_num⟩,
   (index_k_continuous_at_gap 300 (1 / 2) 0 0 0 0 (by norm_num) (by norm_num)).1.1⟩

/-- C11 (claim as stated fails): at `λ = 1.23984/3` (photon energy `3 = 2·Eg`) the CZTS
`index` writes `k = 0.2`, the value of `(2·Eg/Eph)·kA·√((Eph−Eg)/Eg)` itself, and not
that value multiplied by `λ·1e-4/(4π)`. -/
theorem index_CZTS_k_not_scaled :
    (CZTS.index Real.sqrt (1.23984 / 3) 300 0 0 0 0 0).k = 0.2
    ∧ (2 * 1.5 / (1.23984 / (1.23984 / 3)) * 0.2
        * √((1.23984 / (1.23984 / 3) - 1.5) / 1.5) : ℝ) = 0.2
    ∧ (CZTS.index Real.sqrt (1.23984 / 3) 300 0 0 0 0 0).k
        ≠ (1.23984 / 3) * 1e-4
            * (2 * 1.5 / (1.23984 / (1.23984 / 3)) * 0.2
                * √((1.23984 / (1.23984 / 3) - 1.5) / 1.5))
            / (4 * Real.pi) := by
  have hE : (1.23984 : ℝ) / (1.23984 / 3) = 3 := by norm_num
  have hs : √((3 - 1.5) / 1.5 : ℝ) = 1 := by
    have : ((3 - 1.5) / 1.5 : ℝ) = 1 := by norm_num
    rw [this, Real.sqrt_one]
  have hk : (CZTS.index Real.sqrt (1.23984 / 3) 300 0 0 0 0 0).k = 0.2 := by
    rw [index_k_eq_CZTS, hE, hs]
    norm_num
  refine ⟨hk, ?_, ?_⟩
  · rw [hE, hs]
    norm_num
  · rw [hk, hE, hs]
    have hpi : (3 : ℝ) < Real.pi := Real.pi_gt_three
    have hlt : (1.23984 / 3 : ℝ) * 1e-4 * (2 * 1.5 / 3 * 0.2 * 1) / (4 * Real.pi) < 0.2 := by
      rw [div_lt_iff₀ (by positivity)]
      norm_num
      linarith
    exact ne_of_gt hlt

/-- C11 (amended): for every `λ > 0` with `Eph = 1.23984/λ ≥ Eg = 1.5`, the `k` written
by the CZTS `index` is the expression `(2·Eg/Eph)·kA·√((Eph−Eg)/Eg)` itself, with
`kA = 0.2`; no factor `λ·1e-4/(4π)` is applied.  The factor belongs to the InGaN
`index`, which for `Eph ≥ Eg(x)` writes `k = λ·1e-4·α/(4·3.141592653589793)` with
`α = 1e5·√(C·(Eph−Eg) + D·(Eph−Eg)²)`. -/
theorem index_above_gap_k (sqrt : K → K) (lambda temp xcomp ycomp nconc pconc emag : K)
    (hl : 0 < lambda) :
    (1.5 ≤ 1.23984 / lambda →
        (CZTS.index sqrt lambda temp xcomp ycomp nconc pconc emag).k
          = (2 * 1.5 / (1.23984 / lambda)) * 0.2 * sqrt ((1.23984 / lambda - 1.5) / 1.5))
    ∧ (bowingMix eg300_InN eg300_GaN BowingBandgap xcomp ≤ 1.23984 / lambda →
        (InGaN.index sqrt lambda temp xcomp ycomp nconc pconc emag).k
          = lambda * 1e-4
              * (1e5 * sqrt
                  ((3.525016201 - 18.297594473 * xcomp + 40.221588785 * xcomp * xcomp
                      - 37.52274528 * xcomp * xcomp * xcomp
                      + 12.772362503 * xcomp * xcomp * xcomp * xcomp)
                    * (1.23984 / lambda - bowingMix eg300_InN eg300_GaN BowingBandgap xcomp)
                  + (-0.665086247 + 3.616441372 * xcomp - 2.460307692 * xcomp * xcomp)
                    * (1.23984 / lambda - bowingMix eg300_InN eg300_GaN BowingBandgap xcomp)
                    * (1.23984 / lambda - bowingMix eg300_InN eg300_GaN BowingBandgap xcomp)))
              / (4 * 3.141592653589793)) := by
  have _ := hl
  have e1 : (1.0 : K) = 1 := by norm_num
  have e2 : (2.0 : K) = 2 := by norm_num
  have e4 : (4.0 : K) = 4 := by norm_num
  constructor
  · intro h
    have h' : (1.23984 / lambda ≥ (1.5 : K)) := h
    simp only [CZTS.index, if_pos h', e2]
  · intro h
    have h' : (1.23984 / lambda ≥ xcomp * eg300_InN + (1 - xcomp) * eg300_GaN
        - BowingBandgap * xcomp * (1 - xcomp)) := h
    simp only [InGaN.index, e1, e4, bowingMix]
    rw [if_pos h']

/-- Witness for C11 (amended) at `λ = 1/2` µm (`Eph = 2.47968` eV, above `1.5` and
above `Eg(1) = 0.7`), on the rationals with the identity in place of `sqrt`. -/
theorem index_above_gap_k_witness :
    ((0 : ℚ) < 1 / 2 ∧ (1.5 : ℚ) ≤ 1.23984 / (1 / 2)
      ∧ bowingMix (eg300_InN : ℚ) eg300_GaN BowingBandgap 1 ≤ 1.23984 / (1 / 2))
    ∧ (CZTS.index (fun a => a) (1 / 2 : ℚ) 300 1 0 0 0 0).k
        = (2 * 1.5 / (1.23984 / (1 / 2))) * 0.2 * ((1.23984 / (1 / 2) - 1.5) / 1.5) :=
  have h1 : (1.5 : ℚ) ≤ 1.23984 / (1 / 2) := by norm_num
  have h2 : bowingMix (eg300_InN : ℚ) eg300_GaN BowingBandgap 1 ≤ 1.23984 / (1 / 2) := by
    simp only [bowingMix, eg300_InN, eg300_GaN, BowingBandgap]; norm_num
  ⟨⟨by norm_num, h1, h2⟩,
   (index_above_gap_k (fun a => a) (1 / 2 : ℚ) 300 1 0 0 0 0 (by norm_num)).1 h1⟩

/-! ## Endpoints of the mobility queries, permittivity, lifetimes -/

/-- C12: the harmonically mixed `mu1(x)`, `mu2(x)` of `conmun` and `conmup` are the GaN
constants at `x = 0` and the InN constants at `x = 1`, and the mobility written at
`x = 1` (resp. `x = 0`) is the Caughey–Thomas formula evaluated with the pure InN
(resp. GaN) constants `mu1`, `mu2`, `ncrit`, `delta` and all four temperature
exponents equal to `1`, for every temperature and doping and whatever `pow` is. -/
theorem conmun_endpoint_exact (pow : K → K → K) (ycomp temp nd na x y tau : K) :
    (harmonicMix (mu1n_InN : K) mu1n_GaN 0 = mu1n_GaN
      ∧ harmonicMix (mu1n_InN : K) mu1n_GaN 1 = mu1n_InN
      ∧ harmonicMix (mu2n_InN : K) mu2n_GaN 0 = mu2n_GaN
      ∧ harmonicMix (mu2n_InN : K) mu2n_GaN 1 = mu2n_InN
      ∧ harmonicMix (mu1p_InN : K) mu1p_GaN 0 = mu1p_GaN
      ∧ harmonicMix (mu1p_InN : K) mu1p_GaN 1 = mu1p_InN
      ∧ harmonicMix (mu2p_InN : K) mu2p_GaN 0 = mu2p_GaN
      ∧ harmonicMix (mu2p_InN : K) mu2p_GaN 1 = mu2p_InN)
    ∧ (InGaN.conmun pow 1 ycomp temp nd na x y tau).val
        = caugheyThomas pow mu1n_InN mu2n_InN ncritn_InN deltan_InN 1 1 1 1 temp (nd + na)
    ∧ (InGaN.conmun pow 0 ycomp temp nd na x y tau).val
        = caugheyThomas pow mu1n_GaN mu2n_GaN ncritn_GaN deltan_GaN 1 1 1 1 temp (nd + na)
    ∧ (InGaN.conmup pow 1 ycomp temp nd na x y tau).val
        = caugheyThomas pow mu1p_InN mu2p_InN ncritp_InN deltap_InN 1 1 1 1 temp (nd + na)
    ∧ (InGaN.conmup pow 0 ycomp temp nd na x y tau).val
        = caugheyThomas pow mu1p_GaN mu2p_GaN ncritp_GaN deltap_GaN 1 1 1 1 temp (nd + na) := by
  refine ⟨⟨?_, ?_, ?_, ?_, ?_, ?_, ?_, ?_⟩, ?_, ?_, ?_, ?_⟩
  · simp only [harmonicMix, mu1n_InN, mu1n_GaN]; norm_num
  · simp only [harmonicMix, mu1n_InN, mu1n_GaN]; norm_num
  · simp only [harmonicMix, mu2n_InN, mu2n_GaN]; norm_num
  · simp only [harmonicMix, mu2n_InN, mu2n_GaN]; norm_num
  · simp only [harmonicMix, mu1p_InN, mu1p_GaN]; norm_num
  · simp only [harmonicMix, mu1p_InN, mu1p_GaN]; norm_num
  · simp only [harmonicMix, mu2p_InN, mu2p_GaN]; norm_num
  · simp only [harmonicMix, mu2p_InN, mu2p_GaN]; norm_num
  · simp only [InGaN.conmun, caugheyThomas, mu1n_InN, mu1n_GaN, mu2n_InN, mu2n_GaN]
    norm_num
  · simp only [InGaN.conmun, caugheyThomas, mu1n_InN, mu1n_GaN, mu2n_InN, mu2n_GaN]
    norm_num
  · simp only [InGaN.conmup, caugheyThomas, mu1p_InN, mu1p_GaN, mu2p_InN, mu2p_GaN]
    norm_num
  · simp only [InGaN.conmup, caugheyThomas, mu1p_InN, mu1p_GaN, mu2p_InN, mu2p_GaN]
    norm_num

/-- C13: for every `ycomp` and temperature the InGaN `epsilon` at `xcomp = 0.5` writes
the arithmetic mean `(permittivity_InN + permittivity_GaN)/2 = 12.1`, and for every
`xcomp` it writes `x·permittivity_InN + (1−x)·permittivity_GaN`, the same value for
any two choices of `ycomp` and `temp`. -/
theorem epsilon_midpoint_mean (xcomp ycomp temp ycomp2 temp2 : K) :
    (InGaN.epsilon 0.5 ycomp temp).val = (permittivity_InN + permittivity_GaN) / 2
    ∧ (InGaN.epsilon 0.5 ycomp temp).val = 12.1
    ∧ (InGaN.epsilon xcomp ycomp temp).val
        = xcomp * permittivity_InN + (1 - xcomp) * permittivity_GaN
    ∧ (InGaN.epsilon xcomp ycomp temp).val = (InGaN.epsilon xcomp ycomp2 temp2).val := by
  refine ⟨?_, ?_, ?_, ?_⟩
  · simp only [InGaN.epsilon]; norm_num; ring
  · simp only [InGaN.epsilon, permittivity_InN, permittivity_GaN]; norm_num
  · simp only [InGaN.epsilon]; norm_num
  · simp only [InGaN.epsilon]

/-- C14: every entry point of the InGaN and of the CZTS modules returns status `0` for
every input whatsoever (no hypothesis on composition, temperature, wavelength or
doping, and whatever `sqrt` and `pow` return). -/
theorem status_always_zero (sqrt : K → K) (pow : K → K → K) (a b c d e f g h : K) :
    ((InGaN.bandcomp a b c).status = 0
      ∧ (InGaN.index sqrt a b c d e f g).status = 0
      ∧ (InGaN.conmun pow a b c d e f g h).status = 0
      ∧ (InGaN.conmup pow a b c d e f g h).status = 0
      ∧ (InGaN.epsilon a b c).status = 0
      ∧ (InGaN.taun a b c d e).status = 0
      ∧ (InGaN.taup a b c d e).status = 0
      ∧ (InGaN.copt a b c).status = 0
      ∧ (InGaN.gaun a b c).status = 0
      ∧ (InGaN.gaup a b c).status = 0)
    ∧ ((CZTS.bandcomp a b c).status = 0
      ∧ (CZTS.index sqrt a b c d e f g).status = 0
      ∧ (CZTS.conmun pow a b c d e f g h).status = 0
      ∧ (CZTS.conmup pow a b c d e f g h).status = 0
      ∧ (CZTS.epsilon a b c).status = 0
      ∧ (CZTS.taun a b c d e).status = 0
      ∧ (CZTS.taup a b c d e).status = 0
      ∧ (CZTS.copt a b c).status = 0
      ∧ (CZTS.gaun a b c).status = 0
      ∧ (CZTS.gaup a b c).status = 0) :=
  ⟨⟨rfl, rfl, rfl, rfl, rfl, rfl, rfl, rfl, rfl, rfl⟩,
   ⟨rfl, rfl, rfl, rfl, rfl, rfl, rfl, rfl, rfl, rfl⟩⟩

/-- C15: for every position, temperature and doping the InGaN `taun` writes
`(taun0_InN + taun0_GaN)/2 = 1.0e-9` and `taup` writes `(taup0_InN + taup0_GaN)/2 =
1.0e-9`; the CZTS `taun`, `taup` write `taun0_CZTS`, `taup0_CZTS`; any two calls, with
whatever arguments, write the same value. -/
theorem srh_lifetimes_constant (x y temp nd na x2 y2 temp2 nd2 na2 : K) :
    ((InGaN.taun x y temp nd na).val = (taun0_InN + taun0_GaN) / 2
      ∧ (InGaN.taun x y temp nd na).val = 1.0e-9
      ∧ (InGaN.taup x y temp nd na).val = (taup0_InN + taup0_GaN) / 2
      ∧ (InGaN.taup x y temp nd na).val = 1.0e-9)
    ∧ ((CZTS.taun x y temp nd na).val = taun0_CZTS
      ∧ (CZTS.taup x y temp nd na).val = taup0_CZTS)
    ∧ ((InGaN.taun x y temp nd na).val = (InGaN.taun x2 y2 temp2 nd2 na2).val
      ∧ (InGaN.taup x y temp nd na).val = (InGaN.taup x2 y2 temp2 nd2 na2).val
      ∧ (CZTS.taun x y temp nd na).val = (CZTS.taun x2 y2 temp2 nd2 na2).val
      ∧ (CZTS.taup x y temp nd na).val = (CZTS.taup x2 y2 temp2 nd2 na2).val) := by
  refine ⟨⟨?_, ?_, ?_, ?_⟩, ⟨rfl, rfl⟩, ⟨rfl, rfl, rfl, rfl⟩⟩
  · simp only [InGaN.taun]; norm_num; ring
  · simp only [InGaN.taun, taun0_InN, taun0_GaN]; norm_num
  · simp only [InGaN.taup]; norm_num; ring
  · simp only [InGaN.taup, taup0_InN, taup0_GaN]; norm_num

/-! ## The optical query: unused arguments and the gap it compares with -/

/-- C16: two calls of the InGaN `index` with the same `lambda` and `xcomp` write the
same `n` and `k`, whatever `temp`, `ycomp`, `nconc`, `pconc`, `emag` are; two calls of
the CZTS `index` with the same `lambda` write the same `n` and `k`, whatever the other
arguments (`xcomp` included) are. -/
theorem index_ignores_unused_args (sqrt : K → K) (lambda xcomp : K)
    (temp ycomp nconc pconc emag temp2 ycomp2 nconc2 pconc2 emag2 xcomp2 : K) :
    ((InGaN.index sqrt lambda temp xcomp ycomp nconc pconc emag).n
        = (InGaN.index sqrt lambda temp2 xcomp ycomp2 nconc2 pconc2 emag2).n
      ∧ (InGaN.index sqrt lambda temp xcomp ycomp nconc pconc emag).k
        = (InGaN.index sqrt lambda temp2 xcomp ycomp2 nconc2 pconc2 emag2).k)
    ∧ ((CZTS.index sqrt lambda temp xcomp ycomp nconc pconc emag).n
        = (CZTS.index sqrt lambda temp2 xcomp2 ycomp2 nconc2 pconc2 emag2).n
      ∧ (CZTS.index sqrt lambda temp xcomp ycomp nconc pconc emag).k
        = (CZTS.index sqrt lambda temp2 xcomp2 ycomp2 nconc2 pconc2 emag2).k) :=
  ⟨⟨rfl, rfl⟩, ⟨rfl, rfl⟩⟩

/-- C17: the gap the optical query compares the photon energy with is the `eg` written
by the band query at the same `xcomp` (for any `ycomp`, `temp` given to `bandcomp`):
that `eg` is the expression `x·eg300_InN + (1−x)·eg300_GaN − BowingBandgap·x·(1−x)` of
`index` (for CZTS it is `1.5 = eg300_CZTS`), and `index` writes its above-gap values
exactly when `1.23984/lambda ≥ eg` and its below-gap values exactly when
`1.23984/lambda < eg`, all formulas being evaluated with that `eg`. -/
theorem index_gap_is_bandcomp_eg (sqrt : K → K)
    (lambda temp xcomp ycomp nconc pconc emag ycomp2 temp2 : K) :
    ((InGaN.bandcomp xcomp ycomp2 temp2).eg
        = xcomp * eg300_InN + (1 - xcomp) * eg300_GaN - BowingBandgap * xcomp * (1 - xcomp)
      ∧ (CZTS.bandcomp xcomp ycomp2 temp2).eg = 1.5
      ∧ (CZTS.bandcomp xcomp ycomp2 temp2).eg = eg300_CZTS)
    ∧ ((InGaN.bandcomp xcomp ycomp2 temp2).eg ≤ 1.23984 / lambda →
        (InGaN.index sqrt lambda temp xcomp ycomp nconc pconc emag).n
          = sqrt ((13.55 * xcomp + 9.31 * (1 - xcomp)) * 0.5857864376269
                    + (2.05 * xcomp + 3.03 * (1 - xcomp)))
        ∧ (InGaN.index sqrt lambda temp xcomp ycomp nconc pconc emag).k
          = lambda * 1e-4
              * (1e5 * sqrt
                  ((3.525016201 - 18.297594473 * xcomp + 40.221588785 * xcomp * xcomp
                      - 37.52274528 * xcomp * xcomp * xcomp
                      + 12.772362503 * xcomp * xcomp * xcomp * xcomp)
                    * (1.23984 / lambda - (InGaN.bandcomp xcomp ycomp2 temp2).eg)
                  + (-0.665086247 + 3.616441372 * xcomp - 2.460307692 * xcomp * xcomp)
                    * (1.23984 / lambda - (InGaN.bandcomp xcomp ycomp2 temp2).eg)
                    * (1.23984 / lambda - (InGaN.bandcomp xcomp ycomp2 temp2).eg)))
              / (4 * 3.141592653589793))
    ∧ (1.23984 / lambda < (InGaN.bandcomp xcomp ycomp2 temp2).eg →
        (InGaN.index sqrt lambda temp xcomp ycomp nconc pconc emag).n
          = sqrt ((13.55 * xcomp + 9.31 * (1 - xcomp))
                      * (InGaN.bandcomp xcomp ycomp2 temp2).eg
                      * (InGaN.bandcomp xcomp ycomp2 temp2).eg
                      * (2 - sqrt (1 + 1.23984 / lambda / (InGaN.bandcomp xcomp ycomp2 temp2).eg)
                           - sqrt (1 - 1.23984 / lambda / (InGaN.bandcomp xcomp ycomp2 temp2).eg))
                      / (1.23984 / lambda * (1.23984 / lambda))
                    + (2.05 * xcomp + 3.03 * (1 - xcomp)))
        ∧ (InGaN.index sqrt lambda temp xcomp ycomp nconc pconc emag).k = 0)
    ∧ ((CZTS.bandcomp xcomp ycomp2 temp2).eg ≤ 1.23984 / lambda →
        (CZTS.index sqrt lambda temp xcomp ycomp nconc pconc emag).k
          = (2 * (CZTS.bandcomp xcomp ycomp2 temp2).eg / (1.23984 / lambda)) * 0.2
              * sqrt ((1.23984 / lambda - (CZTS.bandcomp xcomp ycomp2 temp2).eg)
                        / (CZTS.bandcomp xcomp ycomp2 temp2).eg))
    ∧ (1.23984 / lambda < (CZTS.bandcomp xcomp ycomp2 temp2).eg →
        (CZTS.index sqrt lambda temp xcomp ycomp nconc pconc emag).k = 0) := by
  have e0 : (0.0 : K) = 0 := by norm_num
  have e1 : (1.0 : K) = 1 := by norm_num
  have e2 : (2.0 : K) = 2 := by norm_num
  have e4 : (4.0 : K) = 4 := by norm_num
  have hg : (InGaN.bandcomp xcomp ycomp2 temp2).eg
      = xcomp * eg300_InN + (1 - xcomp) * eg300_GaN - BowingBandgap * xcomp * (1 - xcomp) := by
    simp only [InGaN.bandcomp, bandcompWith, e1]
  have hc : (CZTS.bandcomp xcomp ycomp2 temp2).eg = 1.5 := by
    simp only [CZTS.bandcomp, eg300_CZTS]
  refine ⟨⟨hg, hc, rfl⟩, ?_, ?_, ?_, ?_⟩
  · intro h
    rw [hg] at h ⊢
    have h' : (1.23984 / lambda ≥ xcomp * eg300_InN + (1 - xcomp) * eg300_GaN
        - BowingBandgap * xcomp * (1 - xcomp)) := h
    simp only [InGaN.index, e1, e4]
    simp only [if_pos h', and_self]
  · intro h
    rw [hg] at h ⊢
    have h' : ¬ (1.23984 / lambda ≥ xcomp * eg300_InN + (1 - xcomp) * eg300_GaN
        - BowingBandgap * xcomp * (1 - xcomp)) := not_le.mpr h
    simp only [InGaN.index, e0, e1, e2, e4]
    simp only [if_neg h', true_and]
    norm_num
  · intro h
    rw [hc] at h ⊢
    have h' : (1.23984 / lambda ≥ (1.5 : K)) := h
    simp only [CZTS.index, e2, if_pos h']
  · intro h
    rw [hc] at h
    have h' : ¬ (1.23984 / lambda ≥ (1.5 : K)) := not_le.mpr h
    simp only [CZTS.index, e0, if_neg h']

/-- Witness for C17 at `λ = 1` µm and `xcomp = 0`, below both gaps (`1.23984 < 3.42` and
`1.23984 < 1.5`), on the rationals with the identity in place of `sqrt`. -/
theorem index_gap_is_bandcomp_eg_witness :
    ((1.23984 / 1 : ℚ) < (InGaN.bandcomp (0 : ℚ) 0 300).eg
      ∧ (1.23984 / 1 : ℚ) < (CZTS.bandcomp (0 : ℚ) 0 300).eg)
    ∧ (InGaN.index (fun a => a) (1 : ℚ) 300 0 0 0 0 0).k = 0
    ∧ (CZTS.index (fun a => a) (1 : ℚ) 300 0 0 0 0 0).k = 0 :=
  have h1 : (1.23984 / 1 : ℚ) < (InGaN.bandcomp (0 : ℚ) 0 300).eg := by
    simp only [InGaN.bandcomp, bandcompWith, eg300_InN, eg300_GaN, BowingBandgap]; norm_num
  have h2 : (1.23984 / 1 : ℚ) < (CZTS.bandcomp (0 : ℚ) 0 300).eg := by
    simp only [CZTS.bandcomp, eg300_CZTS]; norm_num
  ⟨⟨h1, h2⟩,
   ((index_gap_is_bandcomp_eg (fun a => a) (1 : ℚ) 300 0 0 0 0 0 0 300).2.2.1 h1).2,
   (index_gap_is_bandcomp_eg (fun a => a) (1 : ℚ) 300 0 0 0 0 0 0 300).2.2.2.2 h2⟩

/-! ## Division safety and the size of the mismatch of `n` at the gap -/

/-- C18: for `xcomp` in `[0,1]` and `temp > 0` the interpolated
`β(x) = x·egbeta_InN + (1−x)·egbeta_GaN` lies in `[621, 825]`, so `T + β(x) > 621` and
the divisor `(T+β)·(T+β)` of `degdt` in the InGaN `bandcomp` is strictly positive; for
CZTS `T + egbeta_CZTS > 300` and the divisor is strictly positive.  The value written
to `*degdt` times that divisor is the numerator, so the quotient is a genuine one. -/
theorem bandcomp_degdt_divisor_pos (xcomp ycomp temp : K) (hx0 : 0 ≤ xcomp) (hx1 : xcomp ≤ 1)
    (hT : 0 < temp) :
    (621 ≤ linearMix egbeta_InN egbeta_GaN xcomp ∧ linearMix egbeta_InN egbeta_GaN xcomp ≤ 825)
    ∧ 621 < temp + linearMix egbeta_InN egbeta_GaN xcomp
    ∧ 0 < (temp + linearMix egbeta_InN egbeta_GaN xcomp)
            * (temp + linearMix egbeta_InN egbeta_GaN xcomp)
    ∧ (InGaN.bandcomp xcomp ycomp temp).degdt
          * ((temp + linearMix egbeta_InN egbeta_GaN xcomp)
              * (temp + linearMix egbeta_InN egbeta_GaN xcomp))
        = (-2 * linearMix egalpha_InN egalpha_GaN xcomp * temp
              * (temp + linearMix egbeta_InN egbeta_GaN xcomp))
            + linearMix egalpha_InN egalpha_GaN xcomp * temp * temp
    ∧ 300 < temp + egbeta_CZTS
    ∧ 0 < (temp + egbeta_CZTS) * (temp + egbeta_CZTS)
    ∧ (CZTS.bandcomp xcomp ycomp temp).degdt * ((temp + egbeta_CZTS) * (temp + egbeta_CZTS))
        = (-2 * egalpha_CZTS * temp * (temp + egbeta_CZTS)) + egalpha_CZTS * temp * temp := by
  have hb : linearMix (egbeta_InN : K) egbeta_GaN xcomp = 621 + 204 * xcomp := by
    simp only [linearMix, egbeta_InN, egbeta_GaN]; norm_num; ring
  have hb0 : (621 : K) ≤ linearMix egbeta_InN egbeta_GaN xcomp := by rw [hb]; linarith
  have hb1 : linearMix (egbeta_InN : K) egbeta_GaN xcomp ≤ 825 := by rw [hb]; linarith
  have hp : (0 : K) < temp + linearMix egbeta_InN egbeta_GaN xcomp := by linarith
  have hc : (egbeta_CZTS : K) = 300 := by simp only [egbeta_CZTS]; norm_num
  have hpc : (0 : K) < temp + egbeta_CZTS := by rw [hc]; linarith
  refine ⟨⟨hb0, hb1⟩, by linarith, mul_pos hp hp, ?_, by rw [hc]; linarith, mul_pos hpc hpc, ?_⟩
  · have e1 : (1.0 : K) = 1 := by norm_num
    have e2 : (2.0 : K) = 2 := by norm_num
    simp only [InGaN.bandcomp, bandcompWith, e1, e2]
    exact div_mul_cancel₀ _ (mul_pos hp hp).ne'
  · have e2 : (2.0 : K) = 2 := by norm_num
    simp only [CZTS.bandcomp, e2]
    exact div_mul_cancel₀ _ (mul_pos hpc hpc).ne'

/-- Witness for C18 at `xcomp = 1/2`, `temp = 300` (`β = 723`), on the rationals. -/
theorem bandcomp_degdt_divisor_pos_witness :
    ((0 : ℚ) ≤ 1 / 2 ∧ (1 / 2 : ℚ) ≤ 1 ∧ (0 : ℚ) < 300)
    ∧ (621 : ℚ) < 300 + linearMix egbeta_InN egbeta_GaN (1 / 2) :=
  ⟨⟨by norm_num, by norm_num, by norm_num⟩,
   (bandcomp_degdt_divisor_pos (1 / 2 : ℚ) 0 300 (by norm_num) (by norm_num)
      (by norm_num)).2.1⟩

/-- The limit `√(A·(2 − √2) + B)` of the below-gap `n` exceeds the above-gap value
`√(A·0.5857864376269 + B)` by less than `1e-12` on `[0,1]`. -/
lemma index_n_gap_close (x : ℝ) (h0 : 0 ≤ x) (h1 : x ≤ 1) :
    √((13.55 * x + 9.31 * (1 - x)) * (2 - √2) + (2.05 * x + 3.03 * (1 - x)))
      < √((13.55 * x + 9.31 * (1 - x)) * 0.5857864376269 + (2.05 * x + 3.03 * (1 - x)))
        + 1e-12 := by
  have hA0 : (0 : ℝ) < 13.55 * x + 9.31 * (1 - x) := by nlinarith
  have hA1 : (13.55 * x + 9.31 * (1 - x) : ℝ) ≤ 13.55 := by nlinarith
  have hB : (2.05 : ℝ) ≤ 2.05 * x + 3.03 * (1 - x) := by nlinarith
  have hs : (1.41421356237309 : ℝ) < √2 := by
    rw [Real.lt_sqrt (by norm_num)]
    norm_num
  have hd : (2 : ℝ) - √2 - 0.5857864376269 < 1e-14 := by
    have : (1e-14 : ℝ) = 0.00000000000001 := by norm_num
    rw [this]
    linarith
  set v : ℝ := (13.55 * x + 9.31 * (1 - x)) * 0.5857864376269 + (2.05 * x + 3.03 * (1 - x))
    with hv
  have hv1 : (1 : ℝ) ≤ v := by
    have : (0 : ℝ) ≤ (13.55 * x + 9.31 * (1 - x)) * 0.5857864376269 := by positivity
    rw [hv]
    linarith
  have hsv : (1 : ℝ) ≤ √v := by
    rw [Real.le_sqrt' (by norm_num)]
    linarith
  have hsq : √v ^ 2 = v := Real.sq_sqrt (by linarith)
  have hε : (0 : ℝ) < √v + 1e-12 := by positivity
  rw [Real.sqrt_lt' hε]
  have hAd : (13.55 * x + 9.31 * (1 - x)) * (2 - √2 - 0.5857864376269) ≤ 13.55 * 1e-14 := by
    by_cases hneg : (2 : ℝ) - √2 - 0.5857864376269 ≤ 0
    · have : (13.55 * x + 9.31 * (1 - x)) * (2 - √2 - 0.5857864376269) ≤ 0 :=
        mul_nonpos_of_nonneg_of_nonpos hA0.le hneg
      have : (0 : ℝ) ≤ 13.55 * 1e-14 := by norm_num
      linarith
    · exact mul_le_mul hA1 hd.le (not_le.mp hneg).le (by norm_num)
  have hexp : (√v + 1e-12) ^ 2 = v + 2 * 1e-12 * √v + 1e-12 ^ 2 := by
    rw [add_sq, hsq]; ring
  rw [hexp]
  have h2 : (13.55 : ℝ) * 1e-14 < 2 * 1e-12 * 1 := by norm_num
  have h3 : (2 : ℝ) * 1e-12 * 1 ≤ 2 * 1e-12 * √v :=
    mul_le_mul_of_nonneg_left hsv (by norm_num)
  have h4 : (0 : ℝ) < 1e-12 ^ 2 := by positivity
  have hsplit : (13.55 * x + 9.31 * (1 - x)) * (2 - √2) + (2.05 * x + 3.03 * (1 - x))
      = v + (13.55 * x + 9.31 * (1 - x)) * (2 - √2 - 0.5857864376269) := by
    rw [hv]; ring
  rw [hsplit]
  linarith

/-- C19: for `xcomp` in `[0,1]`, with `A = 13.55·x + 9.31·(1−x)` and
`B = 2.05·x + 3.03·(1−x)`: the below-gap `n` written by the InGaN `index` tends to
`√(A·(2 − √2) + B)` as the photon energy rises to the gap, the above-gap value is
`√(A·0.5857864376269 + B)`, and the two differ in absolute value by less than
`1e-12`. -/
theorem index_n_gap_mismatch_small (temp xcomp ycomp nconc pconc emag : ℝ) (hx0 : 0 ≤ xcomp)
    (hx1 : xcomp ≤ 1) :
    Filter.Tendsto (fun lam => (InGaN.index Real.sqrt lam temp xcomp ycomp nconc pconc emag).n)
        (nhdsWithin (1.23984 / bowingMix (eg300_InN : ℝ) eg300_GaN BowingBandgap xcomp)
          (Set.Ioi (1.23984 / bowingMix (eg300_InN : ℝ) eg300_GaN BowingBandgap xcomp)))
        (nhds (√((13.55 * xcomp + 9.31 * (1 - xcomp)) * (2 - √2)
                  + (2.05 * xcomp + 3.03 * (1 - xcomp)))))
    ∧ (∀ lam : ℝ, bowingMix (eg300_InN : ℝ) eg300_GaN BowingBandgap xcomp ≤ 1.23984 / lam →
        |√((13.55 * xcomp + 9.31 * (1 - xcomp)) * (2 - √2)
              + (2.05 * xcomp + 3.03 * (1 - xcomp)))
          - (InGaN.index Real.sqrt lam temp xcomp ycomp nconc pconc emag).n| < 1e-12)
    ∧ |√((13.55 * xcomp + 9.31 * (1 - xcomp)) * (2 - √2)
            + (2.05 * xcomp + 3.03 * (1 - xcomp)))
        - √((13.55 * xcomp + 9.31 * (1 - xcomp)) * 0.5857864376269
            + (2.05 * xcomp + 3.03 * (1 - xcomp)))| < 1e-12 := by
  have hlt := index_n_gap_lt xcomp hx0 hx1
  have hcl := index_n_gap_close xcomp hx0 hx1
  have habs : |√((13.55 * xcomp + 9.31 * (1 - xcomp)) * (2 - √2)
            + (2.05 * xcomp + 3.03 * (1 - xcomp)))
        - √((13.55 * xcomp + 9.31 * (1 - xcomp)) * 0.5857864376269
            + (2.05 * xcomp + 3.03 * (1 - xcomp)))| < 1e-12 := by
    rw [abs_lt]
    constructor <;> linarith
  refine ⟨index_n_tendsto_below_InGaN temp xcomp ycomp nconc pconc emag hx0 hx1, ?_, habs⟩
  intro lam h
  rw [index_n_above_InGaN lam temp xcomp ycomp nconc pconc emag h]
  exact habs

/-- Witness for C19 at `xcomp = 1/2`. -/
theorem index_n_gap_mismatch_small_witness :
    ((0 : ℝ) ≤ 1 / 2 ∧ (1 / 2 : ℝ) ≤ 1)
    ∧ |√((13.55 * (1 / 2) + 9.31 * (1 - 1 / 2)) * (2 - √2)
            + (2.05 * (1 / 2) + 3.03 * (1 - 1 / 2)))
        - √((13.55 * (1 / 2) + 9.31 * (1 - 1 / 2)) * 0.5857864376269
            + (2.05 * (1 / 2) + 3.03 * (1 - 1 / 2)))| < 1e-12 :=
  ⟨⟨by norm_num, by norm_num⟩,
   (index_n_gap_mismatch_small 300 (1 / 2) 0 0 0 0 (by norm_num) (by norm_num)).2.2⟩

/-- C20: for `xcomp` in `[0,1]`, `temp > 0` and `nd, na ≥ 0` every divisor evaluated by
the InGaN `conmun` and `conmup` is strictly positive: the mobility constants, the
harmonic sums `x/mu_InN + (1−x)/mu_GaN` for `mu1` and `mu2`, the product
`ncrit(x)·(T/300)^e` and `1 + (Ntotal/(ncrit(x)·(T/300)^e))^(delta(x)·(T/300)^e) ≥ 1`,
where `e = x·1 + (1−x)·1` is the interpolated temperature exponent; and the value
written is the Caughey–Thomas quotient over exactly these divisors. -/
theorem mobility_divisors_pos (xcomp ycomp temp nd na x y tau : ℝ) (hx0 : 0 ≤ xcomp)
    (hx1 : xcomp ≤ 1) (hT : 0 < temp) (hnd : 0 ≤ nd) (hna : 0 ≤ na) :
    ((0 : ℝ) < mu1n_InN ∧ (0 : ℝ) < mu1n_GaN ∧ (0 : ℝ) < mu2n_InN ∧ (0 : ℝ) < mu2n_GaN
      ∧ (0 : ℝ) < mu1p_InN ∧ (0 : ℝ) < mu1p_GaN ∧ (0 : ℝ) < mu2p_InN ∧ (0 : ℝ) < mu2p_GaN)
    ∧ (0 < xcomp / mu1n_InN + (1 - xcomp) / mu1n_GaN
      ∧ 0 < xcomp / mu2n_InN + (1 - xcomp) / mu2n_GaN
      ∧ 0 < xcomp / mu1p_InN + (1 - xcomp) / mu1p_GaN
      ∧ 0 < xcomp / mu2p_InN + (1 - xcomp) / mu2p_GaN)
    ∧ (0 < linearMix ncritn_InN ncritn_GaN xcomp
            * Real.rpow (temp / 300) (xcomp * 1 + (1 - xcomp) * 1)
      ∧ 0 < linearMix ncritp_InN ncritp_GaN xcomp
            * Real.rpow (temp / 300) (xcomp * 1 + (1 - xcomp) * 1))
    ∧ (1 ≤ 1 + Real.rpow
              ((nd + na) / (linearMix ncritn_InN ncritn_GaN xcomp
                              * Real.rpow (temp / 300) (xcomp * 1 + (1 - xcomp) * 1)))
              (linearMix deltan_InN deltan_GaN xcomp
                * Real.rpow (temp / 300) (xcomp * 1 + (1 - xcomp) * 1))
      ∧ 1 ≤ 1 + Real.rpow
              ((nd + na) / (linearMix ncritp_InN ncritp_GaN xcomp
                              * Real.rpow (temp / 300) (xcomp * 1 + (1 - xcomp) * 1)))
              (linearMix deltap_InN deltap_GaN xcomp
                * Real.rpow (temp / 300) (xcomp * 1 + (1 - xcomp) * 1)))
    ∧ ((InGaN.conmun Real.rpow xcomp ycomp temp nd na x y tau).val
          = caugheyThomas Real.rpow (harmonicMix mu1n_InN mu1n_GaN xcomp)
              (harmonicMix mu2n_InN mu2n_GaN xcomp) (linearMix ncritn_InN ncritn_GaN xcomp)
              (linearMix deltan_InN deltan_GaN xcomp)
              (xcomp * 1 + (1 - xcomp) * 1) (xcomp * 1 + (1 - xcomp) * 1)
              (xcomp * 1 + (1 - xcomp) * 1) (xcomp * 1 + (1 - xcomp) * 1) temp (nd + na)
      ∧ (InGaN.conmup Real.rpow xcomp ycomp temp nd na x y tau).val
          = caugheyThomas Real.rpow (harmonicMix mu1p_InN mu1p_GaN xcomp)
              (harmonicMix mu2p_InN mu2p_GaN xcomp) (linearMix ncritp_InN ncritp_GaN xcomp)
              (linearMix deltap_InN deltap_GaN xcomp)
              (xcomp * 1 + (1 - xcomp) * 1) (xcomp * 1 + (1 - xcomp) * 1)
              (xcomp * 1 + (1 - xcomp) * 1) (xcomp * 1 + (1 - xcomp) * 1) temp (nd + na)) := by
  have hx1' : 0 ≤ 1 - xcomp := sub_nonneg.2 hx1
  have ht : (0 : ℝ) < temp / 300 := by positivity
  have htp : 0 < Real.rpow (temp / 300) (xcomp * 1 + (1 - xcomp) * 1) :=
    Real.rpow_pos_of_pos ht _
  have hcn := mul_pos (ncritn_pos xcomp hx0 hx1) htp
  have hcp := mul_pos (ncritp_pos xcomp hx0 hx1) htp
  have hN : 0 ≤ nd + na := add_nonneg hnd hna
  have e1 : (1.0 : ℝ) = 1 := by norm_num
  have e300 : (300.0 : ℝ) = 300 := by norm_num
  refine ⟨?_, ⟨?_, ?_, ?_, ?_⟩, ⟨hcn, hcp⟩, ⟨?_, ?_⟩, ?_, ?_⟩
  · simp only [mu1n_InN, mu1n_GaN, mu2n_InN, mu2n_GaN, mu1p_InN, mu1p_GaN, mu2p_InN, mu2p_GaN]
    norm_num
  · simp only [mu1n_InN, mu1n_GaN]
    rcases eq_or_lt_of_le hx0 with h | h
    · rw [← h]; norm_num
    · have : 0 < xcomp / 30.0 := by positivity
      have : 0 ≤ (1 - xcomp) / 55.0 := by positivity
      linarith
  · simp only [mu2n_InN, mu2n_GaN]
    rcases eq_or_lt_of_le hx0 with h | h
    · rw [← h]; norm_num
    · have : 0 < xcomp / 1100.0 := by positivity
      have : 0 ≤ (1 - xcomp) / 1000.0 := by positivity
      linarith
  · simp only [mu1p_InN, mu1p_GaN]
    rcases eq_or_lt_of_le hx0 with h | h
    · rw [← h]; norm_num
    · have : 0 < xcomp / 3.0 := by positivity
      have : 0 ≤ (1 - xcomp) / 3.0 := by positivity
      linarith
  · simp only [mu2p_InN, mu2p_GaN]
    rcases eq_or_lt_of_le hx0 with h | h
    · rw [← h]; norm_num
    · have : 0 < xcomp / 340.0 := by positivity
      have : 0 ≤ (1 - xcomp) / 170.0 := by positivity
      linarith
  · have := Real.rpow_nonneg (div_nonneg hN hcn.le)
      (linearMix deltan_InN deltan_GaN xcomp
        * Real.rpow (temp / 300) (xcomp * 1 + (1 - xcomp) * 1))
    exact le_add_of_nonneg_right this
  · have := Real.rpow_nonneg (div_nonneg hN hcp.le)
      (linearMix deltap_InN deltap_GaN xcomp
        * Real.rpow (temp / 300) (xcomp * 1 + (1 - xcomp) * 1))
    exact le_add_of_nonneg_right this
  · simp only [InGaN.conmun, caugheyThomas, harmonicMix, linearMix, e1, e300]
  · simp only [InGaN.conmup, caugheyThomas, harmonicMix, linearMix, e1, e300]

/-- Witness for C20 at `xcomp = 1/2`, `temp = 300`, `nd = 1e18`, `na = 0`. -/
theorem mobility_divisors_pos_witness :
    ((0 : ℝ) ≤ 1 / 2 ∧ (1 / 2 : ℝ) ≤ 1 ∧ (0 : ℝ) < 300 ∧ (0 : ℝ) ≤ 1e18 ∧ (0 : ℝ) ≤ 0)
    ∧ (0 : ℝ) < 1 / 2 / mu1n_InN + (1 - 1 / 2) / mu1n_GaN :=
  ⟨⟨by norm_num, by norm_num, by norm_num, by norm_num, le_rfl⟩,
   (mobility_divisors_pos (1 / 2) 0 300 1e18 0 0 0 0 (by norm_num) (by norm_num)
      (by norm_num) (by norm_num) le_rfl).2.1.1⟩

/-! ## Mobility: order of the end values and monotonicity in the doping -/

/-- On `[0,1]` the harmonically mixed `mu1n(x)` is at most the mixed `mu2n(x)`. -/
lemma harmonic_mu1n_le_mu2n (x : ℝ) (h0 : 0 ≤ x) (h1 : x ≤ 1) :
    harmonicMix (mu1n_InN : ℝ) mu1n_GaN x ≤ harmonicMix mu2n_InN mu2n_GaN x := by
  simp only [harmonicMix, mu1n_InN, mu1n_GaN, mu2n_InN, mu2n_GaN]
  apply one_div_le_one_div_of_le
  · linarith
  · linarith

/-- On `[0,1]` the harmonically mixed `mu1p(x)` is at most the mixed `mu2p(x)`. -/
lemma harmonic_mu1p_le_mu2p (x : ℝ) (h0 : 0 ≤ x) (h1 : x ≤ 1) :
    harmonicMix (mu1p_InN : ℝ) mu1p_GaN x ≤ harmonicMix mu2p_InN mu2p_GaN x := by
  simp only [harmonicMix, mu1p_InN, mu1p_GaN, mu2p_InN, mu2p_GaN]
  apply one_div_le_one_div_of_le
  · linarith
  · linarith

/-- With `u ≤ v` and a non-negative power term the Caughey–Thomas expression lies
between `u` and `v`. -/
lemma ct_between_ordered (u v p : ℝ) (huv : u ≤ v) (hp : 0 ≤ p) :
    u ≤ u + (v - u) / (1 + p) ∧ u + (v - u) / (1 + p) ≤ v := by
  have h := ct_between u v p hp
  rwa [min_eq_left huv, max_eq_right huv] at h

/-- With `u ≤ v`, `c > 0` and `e ≥ 0` the Caughey–Thomas expression is non-increasing
in the total doping on `N ≥ 0`. -/
lemma ct_antitone (u v c e N1 N2 : ℝ) (huv : u ≤ v) (hc : 0 < c) (he : 0 ≤ e)
    (hN1 : 0 ≤ N1) (hN : N1 ≤ N2) :
    u + (v - u) / (1 + (N2 / c) ^ e) ≤ u + (v - u) / (1 + (N1 / c) ^ e) := by
  have hb : N1 / c ≤ N2 / c := div_le_div_of_nonneg_right hN hc.le
  have hp : (N1 / c) ^ e ≤ (N2 / c) ^ e := Real.rpow_le_rpow (div_nonneg hN1 hc.le) hb he
  have hp0 : 0 ≤ (N1 / c) ^ e := Real.rpow_nonneg (div_nonneg hN1 hc.le) e
  have hq : (v - u) / (1 + (N2 / c) ^ e) ≤ (v - u) / (1 + (N1 / c) ^ e) :=
    div_le_div_of_nonneg_left (by linarith) (by linarith) (by linarith)
  linarith

/-- C21: for `xcomp` in `[0,1]`, `temp > 0` and `nd, na ≥ 0` the mobility written by the
InGaN `conmun` satisfies `mu1n(x)·(T/300) ≤ mun ≤ mu2n(x)·(T/300)` with the harmonic
alloy values, `conmup` satisfies the same with the hole constants, and the CZTS
`conmun`/`conmup` satisfy it with `mu1n_CZTS`, `mu2n_CZTS` / `mu1p_CZTS`, `mu2p_CZTS`. -/
theorem mobility_temperature_scaled_bounds (xcomp ycomp temp nd na x y tau : ℝ)
    (hx0 : 0 ≤ xcomp) (hx1 : xcomp ≤ 1) (hT : 0 < temp) (hnd : 0 ≤ nd) (hna : 0 ≤ na) :
    (harmonicMix mu1n_InN mu1n_GaN xcomp * (temp / 300)
        ≤ (InGaN.conmun Real.rpow xcomp ycomp temp nd na x y tau).val
      ∧ (InGaN.conmun Real.rpow xcomp ycomp temp nd na x y tau).val
        ≤ harmonicMix mu2n_InN mu2n_GaN xcomp * (temp / 300))
    ∧ (harmonicMix mu1p_InN mu1p_GaN xcomp * (temp / 300)
        ≤ (InGaN.conmup Real.rpow xcomp ycomp temp nd na x y tau).val
      ∧ (InGaN.conmup Real.rpow xcomp ycomp temp nd na x y tau).val
        ≤ harmonicMix mu2p_InN mu2p_GaN xcomp * (temp / 300))
    ∧ (mu1n_CZTS * (temp / 300) ≤ (CZTS.conmun Real.rpow xcomp ycomp temp nd na x y tau).val
      ∧ (CZTS.conmun Real.rpow xcomp ycomp temp nd na x y tau).val ≤ mu2n_CZTS * (temp / 300))
    ∧ (mu1p_CZTS * (temp / 300) ≤ (CZTS.conmup Real.rpow xcomp ycomp temp nd na x y tau).val
      ∧ (CZTS.conmup Real.rpow xcomp ycomp temp nd na x y tau).val
        ≤ mu2p_CZTS * (temp / 300)) := by
  have ht : (0 : ℝ) < temp / 300 := by positivity
  have hN : 0 ≤ nd + na := add_nonneg hnd hna
  have hcn := mul_pos (ncritn_pos xcomp hx0 hx1) ht
  have hcp := mul_pos (ncritp_pos xcomp hx0 hx1) ht
  have hczn : (0 : ℝ) < ncritn_CZTS * (temp / 300) :=
    mul_pos (by simp only [ncritn_CZTS]; norm_num) ht
  have hczp : (0 : ℝ) < ncritp_CZTS * (temp / 300) :=
    mul_pos (by simp only [ncritp_CZTS]; norm_num) ht
  have ordn := mul_le_mul_of_nonneg_right (harmonic_mu1n_le_mu2n xcomp hx0 hx1) ht.le
  have ordp := mul_le_mul_of_nonneg_right (harmonic_mu1p_le_mu2p xcomp hx0 hx1) ht.le
  have ozn : (mu1n_CZTS : ℝ) * (temp / 300) ≤ mu2n_CZTS * (temp / 300) :=
    mul_le_mul_of_nonneg_right (by simp only [mu1n_CZTS, mu2n_CZTS]; norm_num) ht.le
  have ozp : (mu1p_CZTS : ℝ) * (temp / 300) ≤ mu2p_CZTS * (temp / 300) :=
    mul_le_mul_of_nonneg_right (by simp only [mu1p_CZTS, mu2p_CZTS]; norm_num) ht.le
  refine ⟨?_, ?_, ?_, ?_⟩
  · rw [conmun_val_InGaN]
    exact ct_between_ordered _ _ _ ordn (Real.rpow_nonneg (div_nonneg hN hcn.le) _)
  · rw [conmup_val_InGaN]
    exact ct_between_ordered _ _ _ ordp (Real.rpow_nonneg (div_nonneg hN hcp.le) _)
  · rw [conmun_val_CZTS]
    exact ct_between_ordered _ _ _ ozn (Real.rpow_nonneg (div_nonneg hN hczn.le) _)
  · rw [conmup_val_CZTS]
    exact ct_between_ordered _ _ _ ozp (Real.rpow_nonneg (div_nonneg hN hczp.le) _)

/-- Witness for C21 at `xcomp = 1/2`, `temp = 300`, `nd = 1e18`, `na = 0`. -/
theorem mobility_temperature_scaled_bounds_witness :
    ((0 : ℝ) ≤ 1 / 2 ∧ (1 / 2 : ℝ) ≤ 1 ∧ (0 : ℝ) < 300 ∧ (0 : ℝ) ≤ 1e18 ∧ (0 : ℝ) ≤ 0)
    ∧ (harmonicMix mu1n_InN mu1n_GaN (1 / 2) * (300 / 300)
        ≤ (InGaN.conmun Real.rpow (1 / 2) 0 300 1e18 0 0 0 0).val
      ∧ (InGaN.conmun Real.rpow (1 / 2) 0 300 1e18 0 0 0 0).val
        ≤ harmonicMix mu2n_InN mu2n_GaN (1 / 2) * (300 / 300)) :=
  ⟨⟨by norm_num, by norm_num, by norm_num, by norm_num, le_rfl⟩,
   (mobility_temperature_scaled_bounds (1 / 2) 0 300 1e18 0 0 0 0 (by norm_num) (by norm_num)
      (by norm_num) (by norm_num) le_rfl).1⟩

/-- C22: for `xcomp` in `[0,1]` and `temp > 0` the mobility written by `conmun` and
`conmup` (InGaN and CZTS) depends on the doping only through `nd + na`: two dopings
with the same sum give the same value; and it is non-increasing in `Ntotal = nd + na`
on `Ntotal ≥ 0`: if `0 ≤ nd1 + na1 ≤ nd2 + na2` the mobility at `(nd2, na2)` is at most
the mobility at `(nd1, na1)`. -/
theorem mobility_antitone_in_doping (xcomp ycomp temp nd1 na1 nd2 na2 x y tau : ℝ)
    (hx0 : 0 ≤ xcomp) (hx1 : xcomp ≤ 1) (hT : 0 < temp) (hN1 : 0 ≤ nd1 + na1) :
    (nd1 + na1 = nd2 + na2 →
        (InGaN.conmun Real.rpow xcomp ycomp temp nd2 na2 x y tau).val
          = (InGaN.conmun Real.rpow xcomp ycomp temp nd1 na1 x y tau).val
        ∧ (InGaN.conmup Real.rpow xcomp ycomp temp nd2 na2 x y tau).val
          = (InGaN.conmup Real.rpow xcomp ycomp temp nd1 na1 x y tau).val
        ∧ (CZTS.conmun Real.rpow xcomp ycomp temp nd2 na2 x y tau).val
          = (CZTS.conmun Real.rpow xcomp ycomp temp nd1 na1 x y tau).val
        ∧ (CZTS.conmup Real.rpow xcomp ycomp temp nd2 na2 x y tau).val
          = (CZTS.conmup Real.rpow xcomp ycomp temp nd1 na1 x y tau).val)
    ∧ (nd1 + na1 ≤ nd2 + na2 →
        (InGaN.conmun Real.rpow xcomp ycomp temp nd2 na2 x y tau).val
          ≤ (InGaN.conmun Real.rpow xcomp ycomp temp nd1 na1 x y tau).val
        ∧ (InGaN.conmup Real.rpow xcomp ycomp temp nd2 na2 x y tau).val
          ≤ (InGaN.conmup Real.rpow xcomp ycomp temp nd1 na1 x y tau).val
        ∧ (CZTS.conmun Real.rpow xcomp ycomp temp nd2 na2 x y tau).val
          ≤ (CZTS.conmun Real.rpow xcomp ycomp temp nd1 na1 x y tau).val
        ∧ (CZTS.conmup Real.rpow xcomp ycomp temp nd2 na2 x y tau).val
          ≤ (CZTS.conmup Real.rpow xcomp ycomp temp nd1 na1 x y tau).val) := by
  have ht : (0 : ℝ) < temp / 300 := by positivity
  have hcn := mul_pos (ncritn_pos xcomp hx0 hx1) ht
  have hcp := mul_pos (ncritp_pos xcomp hx0 hx1) ht
  have hczn : (0 : ℝ) < ncritn_CZTS * (temp / 300) :=
    mul_pos (by simp only [ncritn_CZTS]; norm_num) ht
  have hczp : (0 : ℝ) < ncritp_CZTS * (temp / 300) :=
    mul_pos (by simp only [ncritp_CZTS]; norm_num) ht
  have ordn := mul_le_mul_of_nonneg_right (harmonic_mu1n_le_mu2n xcomp hx0 hx1) ht.le
  have ordp := mul_le_mul_of_nonneg_right (harmonic_mu1p_le_mu2p xcomp hx0 hx1) ht.le
  have ozn : (mu1n_CZTS : ℝ) * (temp / 300) ≤ mu2n_CZTS * (temp / 300) :=
    mul_le_mul_of_nonneg_right (by simp only [mu1n_CZTS, mu2n_CZTS]; norm_num) ht.le
  have ozp : (mu1p_CZTS : ℝ) * (temp / 300) ≤ mu2p_CZTS * (temp / 300) :=
    mul_le_mul_of_nonneg_right (by simp only [mu1p_CZTS, mu2p_CZTS]; norm_num) ht.le
  have e1 : (0 : ℝ) ≤ 1 * (temp / 300) := by positivity
  have e2 : (0 : ℝ) ≤ 2 * (temp / 300) := by positivity
  constructor
  · intro h
    simp only [conmun_val_InGaN, conmup_val_InGaN, conmun_val_CZTS, conmup_val_CZTS, h,
      and_self]
  · intro h
    simp only [conmun_val_InGaN, conmup_val_InGaN, conmun_val_CZTS, conmup_val_CZTS]
    exact ⟨ct_antitone _ _ _ _ _ _ ordn hcn e1 hN1 h, ct_antitone _ _ _ _ _ _ ordp hcp e2 hN1 h,
      ct_antitone _ _ _ _ _ _ ozn hczn e1 hN1 h, ct_antitone _ _ _ _ _ _ ozp hczp e2 hN1 h⟩

/-- Witness for C22 at `xcomp = 1/2`, `temp = 300`: doping `(1e17, 0)` against
`(1e18, 1e17)`. -/
theorem mobility_antitone_in_doping_witness :
    ((0 : ℝ) ≤ 1 / 2 ∧ (1 / 2 : ℝ) ≤ 1 ∧ (0 : ℝ) < 300 ∧ (0 : ℝ) ≤ 1e17 + 0
      ∧ (1e17 : ℝ) + 0 ≤ 1e18 + 1e17)
    ∧ (InGaN.conmun Real.rpow (1 / 2) 0 300 1e18 1e17 0 0 0).val
        ≤ (InGaN.conmun Real.rpow (1 / 2) 0 300 1e17 0 0 0 0).val :=
  have h : (1e17 : ℝ) + 0 ≤ 1e18 + 1e17 := by norm_num
  ⟨⟨by norm_num, by norm_num, by norm_num, by norm_num, h⟩,
   ((mobility_antitone_in_doping (1 / 2) 0 300 1e17 0 1e18 1e17 0 0 0 (by norm_num)
      (by norm_num) (by norm_num) (by norm_num)).2 h).1⟩

/-! ## Sign of `degdt` and range of the alloy gap -/

/-- C23: the value written to `*degdt` by `bandcomp` equals `−α·T·(T + 2β)/(T+β)²`
(with the interpolated `α(x)`, `β(x)` for InGaN and `egalpha_CZTS`, `egbeta_CZTS` for
CZTS), and for `xcomp` in `[0,1]` and `temp > 0` it is strictly negative. -/
theorem bandcomp_degdt_negative (xcomp ycomp temp : K) (hx0 : 0 ≤ xcomp) (hx1 : xcomp ≤ 1)
    (hT : 0 < temp) :
    ((InGaN.bandcomp xcomp ycomp temp).degdt
        = -(linearMix egalpha_InN egalpha_GaN xcomp * temp
              * (temp + 2 * linearMix egbeta_InN egbeta_GaN xcomp))
            / (temp + linearMix egbeta_InN egbeta_GaN xcomp) ^ 2
      ∧ (InGaN.bandcomp xcomp ycomp temp).degdt < 0)
    ∧ ((CZTS.bandcomp xcomp ycomp temp).degdt
        = -(egalpha_CZTS * temp * (temp + 2 * egbeta_CZTS)) / (temp + egbeta_CZTS) ^ 2
      ∧ (CZTS.bandcomp xcomp ycomp temp).degdt < 0) := by
  have e1 : (1.0 : K) = 1 := by norm_num
  have e2 : (2.0 : K) = 2 := by norm_num
  have ha : (0 : K) < linearMix egalpha_InN egalpha_GaN xcomp := by
    simp only [linearMix, egalpha_InN, egalpha_GaN]
    have h1 : (0 : K) ≤ xcomp * 0.914e-3 := mul_nonneg hx0 (by norm_num)
    have h2 : (0 : K) ≤ (1 - xcomp) * 9.47e-4 := mul_nonneg (sub_nonneg.2 hx1) (by norm_num)
    rcases eq_or_lt_of_le hx0 with h | h
    · rw [← h]; norm_num
    · have : (0 : K) < xcomp * 0.914e-3 := mul_pos h (by norm_num)
      linarith
  have hb : (0 : K) < linearMix egbeta_InN egbeta_GaN xcomp := by
    have : linearMix (egbeta_InN : K) egbeta_GaN xcomp = 621 + 204 * xcomp := by
      simp only [linearMix, egbeta_InN, egbeta_GaN]; norm_num; ring
    rw [this]; linarith
  have hac : (0 : K) < egalpha_CZTS := by simp only [egalpha_CZTS]; norm_num
  have hbc : (0 : K) < egbeta_CZTS := by simp only [egbeta_CZTS]; norm_num
  have hI : (InGaN.bandcomp xcomp ycomp temp).degdt
      = -(linearMix egalpha_InN egalpha_GaN xcomp * temp
            * (temp + 2 * linearMix egbeta_InN egbeta_GaN xcomp))
          / (temp + linearMix egbeta_InN egbeta_GaN xcomp) ^ 2 := by
    simp only [InGaN.bandcomp, bandcompWith, linearMix, e1, e2]
    congr 1 <;> ring
  have hC : (CZTS.bandcomp xcomp ycomp temp).degdt
      = -(egalpha_CZTS * temp * (temp + 2 * egbeta_CZTS)) / (temp + egbeta_CZTS) ^ 2 := by
    simp only [CZTS.bandcomp, e2]
    congr 1 <;> ring
  refine ⟨⟨hI, ?_⟩, ⟨hC, ?_⟩⟩
  · rw [hI]
    apply div_neg_of_neg_of_pos
    · have : (0 : K) < linearMix egalpha_InN egalpha_GaN xcomp * temp
          * (temp + 2 * linearMix egbeta_InN egbeta_GaN xcomp) := by positivity
      linarith
    · positivity
  · rw [hC]
    apply div_neg_of_neg_of_pos
    · have : (0 : K) < egalpha_CZTS * temp * (temp + 2 * egbeta_CZTS) := by positivity
      linarith
    · positivity

/-- Witness for C23 at `xcomp = 1/2`, `temp = 300`, on the rationals. -/
theorem bandcomp_degdt_negative_witness :
    ((0 : ℚ) ≤ 1 / 2 ∧ (1 / 2 : ℚ) ≤ 1 ∧ (0 : ℚ) < 300)
    ∧ (InGaN.bandcomp (1 / 2 : ℚ) 0 300).degdt < 0
    ∧ (CZTS.bandcomp (1 / 2 : ℚ) 0 300).degdt < 0 :=
  ⟨⟨by norm_num, by norm_num, by norm_num⟩,
   (bandcomp_degdt_negative (1 / 2 : ℚ) 0 300 (by norm_num) (by norm_num) (by norm_num)).1.2,
   (bandcomp_degdt_negative (1 / 2 : ℚ) 0 300 (by norm_num) (by norm_num) (by norm_num)).2.2⟩

/-- C24: the `eg` written by the InGaN `bandcomp`, which is the expression
`x·0.7 + (1−x)·3.42 − 1.43·x·(1−x)` that `index` uses as its gap, is strictly decreasing
in `x` on `[0,1]` and satisfies `0.7 ≤ eg(x) ≤ 3.42` there; in particular it is positive
and non-zero, so the divisor `Eg` of `Eph/Eg` in `index` is not zero. -/
theorem bandcomp_eg_strictAnti_range (ycomp temp : K) :
    StrictAntiOn (fun x => (InGaN.bandcomp x ycomp temp).eg) (Set.Icc 0 1)
    ∧ (∀ x : K, 0 ≤ x → x ≤ 1 →
        (InGaN.bandcomp x ycomp temp).eg = x * 0.7 + (1 - x) * 3.42 - 1.43 * x * (1 - x)
        ∧ (InGaN.bandcomp x ycomp temp).eg
            = x * eg300_InN + (1 - x) * eg300_GaN - BowingBandgap * x * (1 - x)
        ∧ 0.7 ≤ (InGaN.bandcomp x ycomp temp).eg
        ∧ (InGaN.bandcomp x ycomp temp).eg ≤ 3.42
        ∧ 0 < (InGaN.bandcomp x ycomp temp).eg
        ∧ (InGaN.bandcomp x ycomp temp).eg ≠ 0) := by
  have e1 : (1.0 : K) = 1 := by norm_num
  have hform : ∀ x : K, (InGaN.bandcomp x ycomp temp).eg
      = 3.42 - 4.15 * x + 1.43 * x * x := by
    intro x
    simp only [InGaN.bandcomp, bandcompWith, eg300_InN, eg300_GaN, BowingBandgap, e1]
    ring
  constructor
  · intro a ha b hb hab
    simp only [Set.mem_Icc] at ha hb
    show (InGaN.bandcomp b ycomp temp).eg < (InGaN.bandcomp a ycomp temp).eg
    rw [hform a, hform b]
    have hd : 0 < b - a := sub_pos.2 hab
    have hs : (0 : K) < 4.15 - 1.43 * (a + b) := by
      have : a + b ≤ 2 := by linarith [ha.2, hb.2]
      linarith
    nlinarith [mul_pos hd hs]
  · intro x h0 h1
    have h01 : 0 ≤ x * (1 - x) := mul_nonneg h0 (sub_nonneg.2 h1)
    have h11 : 0 ≤ (1 - x) * (1 - x) := mul_nonneg (sub_nonneg.2 h1) (sub_nonneg.2 h1)
    have hlo : (0.7 : K) ≤ (InGaN.bandcomp x ycomp temp).eg := by
      rw [hform x]; nlinarith
    have hhi : (InGaN.bandcomp x ycomp temp).eg ≤ 3.42 := by
      rw [hform x]; nlinarith
    have hpos : 0 < (InGaN.bandcomp x ycomp temp).eg :=
      lt_of_lt_of_le (by norm_num) hlo
    refine ⟨?_, ?_, hlo, hhi, hpos, hpos.ne'⟩
    · rw [hform x]; ring
    · simp only [InGaN.bandcomp, bandcompWith, e1]

/-- Witness for C24: on the rationals, `eg` at `xcomp = 1/2` lies in `[0.7, 3.42]` and
`eg(3/4) < eg(1/4)`. -/
theorem bandcomp_eg_strictAnti_range_witness :
    ((0 : ℚ) ≤ 1 / 2 ∧ (1 / 2 : ℚ) ≤ 1)
    ∧ (0.7 : ℚ) ≤ (InGaN.bandcomp (1 / 2 : ℚ) 0 300).eg
    ∧ (InGaN.bandcomp (3 / 4 : ℚ) 0 300).eg < (InGaN.bandcomp (1 / 4 : ℚ) 0 300).eg :=
  ⟨⟨by norm_num, by norm_num⟩,
   ((bandcomp_eg_strictAnti_range (0 : ℚ) 300).2 (1 / 2) (by norm_num) (by norm_num)).2.2.1,
   (bandcomp_eg_strictAnti_range (0 : ℚ) 300).1 (by norm_num [Set.mem_Icc])
      (by norm_num [Set.mem_Icc]) (by norm_num)⟩

/-! ## Well-definedness of the optical query -/

/-- For `0 ≤ r ≤ 1` the two inner square roots of the below-gap index add up to at
most `2`. -/
lemma sqrt_pair_le_two (r : ℝ) (h0 : 0 ≤ r) (h1 : r ≤ 1) : √(1 + r) + √(1 - r) ≤ 2 := by
  have ha : √(1 + r) ≤ (2 + r) / 2 := by
    rw [Real.sqrt_le_iff]
    constructor
    · linarith
    · nlinarith [sq_nonneg r]
  have hb : √(1 - r) ≤ (2 - r) / 2 := by
    rw [Real.sqrt_le_iff]
    constructor
    · linarith
    · nlinarith [sq_nonneg r]
  linarith

/-- C26: for `xcomp` in `[0,1]` and `λ > 0` with `Eph = 1.23984/λ < Eg(x)`, both inner
square roots of the below-gap `n` have non-negative arguments,
`2 − √(1+Eph/Eg) − √(1−Eph/Eg) ≥ 0`, the outer radicand is at least
`B(x) = 2.05·x + 3.03·(1−x) ≥ 2.05`, and the `n` written by the InGaN `index` satisfies
`n ≥ √B(x) > 0`. -/
theorem index_n_below_gap_lower_bound (lambda temp xcomp ycomp nconc pconc emag : ℝ)
    (hx0 : 0 ≤ xcomp) (hx1 : xcomp ≤ 1) (hl : 0 < lambda)
    (hE : 1.23984 / lambda < bowingMix eg300_InN eg300_GaN BowingBandgap xcomp) :
    (0 ≤ 1 + 1.23984 / lambda / bowingMix eg300_InN eg300_GaN BowingBandgap xcomp
      ∧ 0 ≤ 1 - 1.23984 / lambda / bowingMix eg300_InN eg300_GaN BowingBandgap xcomp)
    ∧ 0 ≤ 2 - √(1 + 1.23984 / lambda / bowingMix eg300_InN eg300_GaN BowingBandgap xcomp)
            - √(1 - 1.23984 / lambda / bowingMix eg300_InN eg300_GaN BowingBandgap xcomp)
    ∧ 2.05 * xcomp + 3.03 * (1 - xcomp)
        ≤ (13.55 * xcomp + 9.31 * (1 - xcomp))
              * bowingMix eg300_InN eg300_GaN BowingBandgap xcomp
              * bowingMix eg300_InN eg300_GaN BowingBandgap xcomp
              * (2 - √(1 + 1.23984 / lambda / bowingMix eg300_InN eg300_GaN BowingBandgap xcomp)
                   - √(1 - 1.23984 / lambda
                          / bowingMix eg300_InN eg300_GaN BowingBandgap xcomp))
              / (1.23984 / lambda * (1.23984 / lambda))
            + (2.05 * xcomp + 3.03 * (1 - xcomp))
    ∧ 2.05 ≤ 2.05 * xcomp + 3.03 * (1 - xcomp)
    ∧ √(2.05 * xcomp + 3.03 * (1 - xcomp))
        ≤ (InGaN.index Real.sqrt lambda temp xcomp ycomp nconc pconc emag).n
    ∧ 0 < √(2.05 * xcomp + 3.03 * (1 - xcomp))
    ∧ 0 < (InGaN.index Real.sqrt lambda temp xcomp ycomp nconc pconc emag).n := by
  have hEg : 0 < bowingMix (eg300_InN : ℝ) eg300_GaN BowingBandgap xcomp :=
    Eg_pos xcomp hx0 hx1
  have hEph : (0 : ℝ) < 1.23984 / lambda := by positivity
  have hr0 : 0 ≤ 1.23984 / lambda / bowingMix (eg300_InN : ℝ) eg300_GaN BowingBandgap xcomp :=
    (div_pos hEph hEg).le
  have hr1 : 1.23984 / lambda / bowingMix (eg300_InN : ℝ) eg300_GaN BowingBandgap xcomp ≤ 1 :=
    (div_le_one hEg).2 hE.le
  have hsum := sqrt_pair_le_two _ hr0 hr1
  have hbr : 0 ≤ 2 - √(1 + 1.23984 / lambda
        / bowingMix (eg300_InN : ℝ) eg300_GaN BowingBandgap xcomp)
      - √(1 - 1.23984 / lambda / bowingMix (eg300_InN : ℝ) eg300_GaN BowingBandgap xcomp) := by
    linarith
  have hA : (0 : ℝ) ≤ 13.55 * xcomp + 9.31 * (1 - xcomp) := by nlinarith
  have hB : (2.05 : ℝ) ≤ 2.05 * xcomp + 3.03 * (1 - xcomp) := by nlinarith
  have hout : 2.05 * xcomp + 3.03 * (1 - xcomp)
      ≤ (13.55 * xcomp + 9.31 * (1 - xcomp))
            * bowingMix eg300_InN eg300_GaN BowingBandgap xcomp
            * bowingMix eg300_InN eg300_GaN BowingBandgap xcomp
            * (2 - √(1 + 1.23984 / lambda / bowingMix eg300_InN eg300_GaN BowingBandgap xcomp)
                 - √(1 - 1.23984 / lambda
                        / bowingMix eg300_InN eg300_GaN BowingBandgap xcomp))
            / (1.23984 / lambda * (1.23984 / lambda))
          + (2.05 * xcomp + 3.03 * (1 - xcomp)) := by
    have : 0 ≤ (13.55 * xcomp + 9.31 * (1 - xcomp))
            * bowingMix eg300_InN eg300_GaN BowingBandgap xcomp
            * bowingMix eg300_InN eg300_GaN BowingBandgap xcomp
            * (2 - √(1 + 1.23984 / lambda / bowingMix eg300_InN eg300_GaN BowingBandgap xcomp)
                 - √(1 - 1.23984 / lambda
                        / bowingMix eg300_InN eg300_GaN BowingBandgap xcomp))
            / (1.23984 / lambda * (1.23984 / lambda)) :=
      div_nonneg (mul_nonneg (mul_nonneg (mul_nonneg hA hEg.le) hEg.le) hbr)
        (mul_nonneg hEph.le hEph.le)
    linarith
  have hsB : 0 < √(2.05 * xcomp + 3.03 * (1 - xcomp)) := Real.sqrt_pos.2 (by linarith)
  have hn : √(2.05 * xcomp + 3.03 * (1 - xcomp))
      ≤ (InGaN.index Real.sqrt lambda temp xcomp ycomp nconc pconc emag).n := by
    rw [index_n_below_InGaN lambda temp xcomp ycomp nconc pconc emag hE]
    exact Real.sqrt_le_sqrt hout
  exact ⟨⟨by linarith, by linarith⟩, hbr, hout, hB, hn, hsB, lt_of_lt_of_le hsB hn⟩

/-- Witness for C26 at `xcomp = 0`, `λ = 1` µm (`Eph = 1.23984 < Eg = 3.42`). -/
theorem index_n_below_gap_lower_bound_witness :
    ((0 : ℝ) ≤ 0 ∧ (0 : ℝ) ≤ 1 ∧ (0 : ℝ) < 1
      ∧ (1.23984 / 1 : ℝ) < bowingMix eg300_InN eg300_GaN BowingBandgap 0)
    ∧ √(2.05 * 0 + 3.03 * (1 - 0)) ≤ (InGaN.index Real.sqrt 1 300 0 0 0 0 0).n :=
  have hE : (1.23984 / 1 : ℝ) < bowingMix eg300_InN eg300_GaN BowingBandgap 0 := by
    simp only [bowingMix, eg300_InN, eg300_GaN, BowingBandgap]; norm_num
  ⟨⟨le_rfl, zero_le_one, one_pos, hE⟩,
   (index_n_below_gap_lower_bound 1 300 0 0 0 0 0 le_rfl zero_le_one one_pos hE).2.2.2.2.1⟩

/-- The CZTS extinction expression as a function of the photon energy `E > 0`: it lies
in `[0, 0.2]` and equals `0.2` exactly at `E = 3`. -/
lemma czts_k_range (E : ℝ) (hE : 0 < E) :
    0 ≤ 2 * 1.5 / E * 0.2 * √((E - 1.5) / 1.5)
    ∧ 2 * 1.5 / E * 0.2 * √((E - 1.5) / 1.5) ≤ 0.2
    ∧ (2 * 1.5 / E * 0.2 * √((E - 1.5) / 1.5) = 0.2 ↔ E = 3) := by
  obtain ⟨s, hs⟩ : ∃ s : ℝ, s = √((E - 1.5) / 1.5) := ⟨_, rfl⟩
  have hs0 : 0 ≤ s := by rw [hs]; exact Real.sqrt_nonneg _
  rw [← hs]
  have hk : 2 * 1.5 / E * 0.2 * s = 0.6 * s / E := by
    rw [show (0.6 : ℝ) = 2 * 1.5 * 0.2 by norm_num]
    ring
  rw [hk]
  by_cases h : 1.5 ≤ E
  · have hs2 : s ^ 2 = (E - 1.5) / 1.5 := by
      rw [hs]
      exact Real.sq_sqrt (div_nonneg (by linarith) (by norm_num))
    have hEs : E = 1.5 + 1.5 * s ^ 2 := by
      rw [hs2]; field_simp
    refine ⟨by positivity, ?_, ?_⟩
    · rw [div_le_iff₀ hE]
      nlinarith [sq_nonneg (s - 1)]
    · rw [div_eq_iff hE.ne']
      constructor
      · intro h1
        have h2 : (s - 1) ^ 2 = 0 := by nlinarith
        have h3 : s = 1 := by
          have := pow_eq_zero_iff (two_ne_zero) |>.1 h2
          linarith
        rw [hEs, h3]; norm_num
      · intro h1
        have h2 : s ^ 2 = 1 := by rw [hs2, h1]; norm_num
        have h3 : s = 1 := by nlinarith
        rw [h3, h1]; norm_num
  · have hlt : E < 1.5 := not_le.mp h
    have hneg : (E - 1.5) / 1.5 ≤ 0 :=
      div_nonpos_of_nonpos_of_nonneg (by linarith) (by norm_num)
    have hsz : s = 0 := by rw [hs]; exact Real.sqrt_eq_zero_of_nonpos hneg
    rw [hsz]
    refine ⟨by simp, by simp; norm_num, ?_⟩
    constructor
    · intro h1
      simp at h1
      norm_num at h1
    · intro h1
      linarith

/-- C27: for every `λ > 0` the `k` written by the CZTS `index` satisfies `0 ≤ k ≤ 0.2`,
with `k = 0.2` exactly when `Eph = 1.23984/λ = 3 = 2·Eg`, that is when `λ = 1.23984/3`;
and the `n` written is `2.59` for every input. -/
theorem index_CZTS_k_bounds (lambda temp xcomp ycomp nconc pconc emag : ℝ) (hl : 0 < lambda) :
    (0 ≤ (CZTS.index Real.sqrt lambda temp xcomp ycomp nconc pconc emag).k
      ∧ (CZTS.index Real.sqrt lambda temp xcomp ycomp nconc pconc emag).k ≤ 0.2)
    ∧ ((CZTS.index Real.sqrt lambda temp xcomp ycomp nconc pconc emag).k = 0.2
        ↔ 1.23984 / lambda = 3)
    ∧ (1.23984 / lambda = 3 ↔ lambda = 1.23984 / 3)
    ∧ (3 : ℝ) = 2 * eg300_CZTS
    ∧ (CZTS.index Real.sqrt lambda temp xcomp ycomp nconc pconc emag).n = 2.59 := by
  have hEph : (0 : ℝ) < 1.23984 / lambda := by positivity
  have hr := czts_k_range (1.23984 / lambda) hEph
  rw [← index_k_eq_CZTS lambda temp xcomp ycomp nconc pconc emag] at hr
  refine ⟨⟨hr.1, hr.2.1⟩, hr.2.2, ?_, ?_, rfl⟩
  · rw [div_eq_iff hl.ne']
    constructor
    · intro h
      rw [eq_div_iff (by norm_num)]
      linarith
    · intro h
      rw [h]; norm_num
  · simp only [eg300_CZTS]; norm_num

/-- Witness for C27 at `λ = 1/2` µm. -/
theorem index_CZTS_k_bounds_witness :
    (0 : ℝ) < 1 / 2
    ∧ (0 ≤ (CZTS.index Real.sqrt (1 / 2) 300 0 0 0 0 0).k
      ∧ (CZTS.index Real.sqrt (1 / 2) 300 0 0 0 0 0).k ≤ 0.2) :=
  ⟨by norm_num, (index_CZTS_k_bounds (1 / 2) 300 0 0 0 0 0 (by norm_num)).1⟩

end SLALOM
